import Mathlib

/-!
# Verification of `bev/spsc_ring_buffer.hpp`

A shallow embedding of `q::util::spsc_ring_buffer` (a fixed-length single
producer, single consumer ring buffer).

Modelling conventions

* A `char*` is the natural number holding its address; `m_buf` is
  represented by `data` (the value of `m_buf.data()`) and `size` (the value
  of `m_buf.size()`).  No member function reads or writes the bytes of
  `m_buf`; the bytes live in the memory of `World` further down.
* `size_t` is 64 bits wide: a conversion to `size_t` is `to_size_t`
  (reduction modulo `2^64`), a `size_t` subtraction is `size_t_sub`.
* A pointer difference (`ptrdiff_t`) is an `Int`, a pointer plus a `size_t`
  is a sum of natural numbers.
* The three `std::atomic<char*>` of `shared_state` are plain fields: the
  embedding is the sequentially consistent interleaving of whole member
  function calls.
* `nullptr` as the result of `try_claim` is `none`.
-/

namespace q.util

/-- Modulus of `size_t`. -/
def SIZE_MOD : Nat := 18446744073709551616

/-- Conversion `static_cast<size_t>(d)` of a `ptrdiff_t`. -/
def to_size_t (d : Int) : Nat := (d % 18446744073709551616).toNat

/-- Subtraction `a - b` of two `size_t` values. -/
def size_t_sub (a b : Nat) : Nat := to_size_t ((a : Int) - (b : Int))

/-- Pointer difference `p - q`. -/
def ptr_diff (p q : Nat) : Int := (p : Int) - (q : Int)

/-- Consumer-private cursors (`struct read_state`). -/
structure read_state where
  read : Nat
  prev_write : Nat
  prev_watermark : Nat
deriving DecidableEq, Repr

/-- Producer-private cursors (`struct write_state`). -/
structure write_state where
  write : Nat
  claimed : Nat
  watermark : Nat
deriving DecidableEq, Repr

/-- Cursors visible to both threads (`struct shared_state`). -/
structure shared_state where
  read : Nat
  write : Nat
  watermark : Nat
deriving DecidableEq, Repr

/-- Constructor `read_state(begin, size)`. -/
def read_state.new (begin size : Nat) : read_state :=
  { read := begin, prev_write := begin, prev_watermark := begin + size }

/-- Constructor `write_state(begin, size)`. -/
def write_state.new (begin size : Nat) : write_state :=
  { write := begin, claimed := begin, watermark := begin + size }

/-- Constructor `shared_state(data, size)`. -/
def shared_state.new (data size : Nat) : shared_state :=
  { read := data, write := data, watermark := data + size }

/-- The class `spsc_ring_buffer`; `data` and `size` stand for `m_buf`. -/
structure spsc_ring_buffer where
  data : Nat
  size : Nat
  m_reader : read_state
  m_writer : write_state
  m_shared : shared_state
deriving DecidableEq, Repr

/-- Constructor `spsc_ring_buffer(size)`, the allocation being at `data`. -/
def spsc_ring_buffer.new (data size : Nat) : spsc_ring_buffer :=
  { data := data, size := size,
    m_reader := read_state.new data size,
    m_writer := write_state.new data size,
    m_shared := shared_state.new data size }

/-- The three `assert`s at the head of `try_claim`. -/
def try_claim_pre (rb : spsc_ring_buffer) (size : Nat) : Prop :=
  size ≠ 0 ∧ size ≤ rb.size ∧ rb.m_writer.write = rb.m_writer.claimed

instance (rb : spsc_ring_buffer) (size : Nat) : Decidable (try_claim_pre rb size) := by
  unfold try_claim_pre; infer_instance

/-- Assignment `m_writer.claimed = c`. -/
def set_claimed (rb : spsc_ring_buffer) (c : Nat) : spsc_ring_buffer :=
  { rb with m_writer := { rb.m_writer with claimed := c } }

/-- Member function `try_claim(size)`: the returned pointer and the state after. -/
def try_claim (rb : spsc_ring_buffer) (size : Nat) : Option Nat × spsc_ring_buffer :=
  let read := rb.m_shared.read
  if rb.m_writer.write ≥ read then
    if size_t_sub rb.size size ≥ to_size_t (ptr_diff rb.m_writer.write rb.data) then
      (some rb.m_writer.write, set_claimed rb (rb.m_writer.write + size))
    else if to_size_t (ptr_diff read rb.data) > size then
      (some rb.data, set_claimed rb (rb.data + size))
    else
      (none, rb)
  else if to_size_t (ptr_diff read rb.m_writer.write) > size then
    (some rb.m_writer.write, set_claimed rb (rb.m_writer.write + size))
  else
    (none, rb)

/-- The tail of `commit`: `m_writer.write = m_writer.claimed` followed by the
store of `m_writer.write` into `m_shared.write`. -/
def publish_write (rb : spsc_ring_buffer) : spsc_ring_buffer :=
  { rb with
    m_writer := { rb.m_writer with write := rb.m_writer.claimed },
    m_shared := { rb.m_shared with write := rb.m_writer.claimed } }

/-- Member function `commit()`. -/
def commit (rb : spsc_ring_buffer) : spsc_ring_buffer :=
  let claim_len := ptr_diff rb.m_writer.claimed rb.m_writer.write
  if claim_len < 0 then
    publish_write { rb with m_shared := { rb.m_shared with watermark := rb.m_writer.write } }
  else if claim_len = 0 then
    rb
  else
    publish_write rb

/-- Member function `try_read()`: the returned pair and the state after. -/
def try_read (rb : spsc_ring_buffer) : (Nat × Nat) × spsc_ring_buffer :=
  let rb1 := { rb with m_reader := { rb.m_reader with prev_write := rb.m_shared.write } }
  if rb1.m_reader.prev_write ≥ rb1.m_reader.read then
    ((rb1.m_reader.read, rb1.m_reader.prev_write), rb1)
  else
    let rb2 := { rb1 with
      m_reader := { rb1.m_reader with prev_watermark := rb1.m_shared.watermark } }
    if rb2.m_reader.read = rb2.m_reader.prev_watermark then
      let rb3 := { rb2 with m_reader := { rb2.m_reader with read := rb2.data } }
      ((rb3.m_reader.read, rb3.m_reader.prev_write), rb3)
    else
      ((rb2.m_reader.read, rb2.m_reader.prev_watermark), rb2)

/-- The tail of `consume`: the store of `m_reader.read` into `m_shared.read`. -/
def publish_read (rb : spsc_ring_buffer) : spsc_ring_buffer :=
  { rb with m_shared := { rb.m_shared with read := rb.m_reader.read } }

/-- Assignment `m_reader.read = r`. -/
def set_read (rb : spsc_ring_buffer) (r : Nat) : spsc_ring_buffer :=
  { rb with m_reader := { rb.m_reader with read := r } }

/-- Member function `consume(size)`: the returned flag and the state after. -/
def consume (rb : spsc_ring_buffer) (size : Nat) : Bool × spsc_ring_buffer :=
  let readable := ptr_diff rb.m_reader.prev_write rb.m_reader.read
  if readable ≥ 0 then
    if size > to_size_t readable then
      (false, rb)
    else
      (true, publish_read (set_read rb (rb.m_reader.read + size)))
  else
    let remaining := to_size_t (ptr_diff rb.m_reader.prev_watermark rb.m_reader.read)
    if size > remaining then
      (false, rb)
    else if size = remaining then
      (true, publish_read (set_read rb rb.data))
    else
      (true, publish_read (set_read rb (rb.m_reader.read + size)))

/-! ## The two callers and the bytes of the buffer

The member functions hand out addresses; the bytes are written by the
producer's caller and read by the consumer's caller.  `World` holds the ring
buffer, the memory, and a shadow record of what was committed and consumed.
-/

/-- One byte of the buffer (`char`). -/
abbrev Byte := UInt8

/-- The bytes stored at the `n` addresses starting at `p`. -/
def bytes_at (mem : Nat → Byte) (p n : Nat) : List Byte :=
  (List.range' p n).map mem

/-- A call made by one of the two callers; `store` is the producer's caller
writing one byte of its payload into the region it has claimed. -/
inductive Op where
  | try_claim (size : Nat)
  | store (addr : Nat) (b : Byte)
  | commit
  | try_read
  | consume (size : Nat)
deriving DecidableEq, Repr

/-- The ring buffer together with the memory and the shadow record:
`pending` is the region returned by a successful `try_claim` that has not been
committed yet, `committed` the concatenation of the payloads committed so far,
`consumed` the concatenation of the bytes consumed so far, `live` the addresses
of the bytes committed and not yet consumed. -/
structure World where
  rb : spsc_ring_buffer
  mem : Nat → Byte
  pending : Option (Nat × Nat)
  committed : List Byte
  consumed : List Byte
  live : List Nat

/-- A freshly constructed buffer of `size` bytes at address `data`. -/
def World.new (data size : Nat) (mem : Nat → Byte) : World :=
  { rb := spsc_ring_buffer.new data size, mem := mem, pending := none,
    committed := [], consumed := [], live := [] }

/-- Whether address `a` lies in the `n` bytes starting at `p`. -/
def in_region (p n a : Nat) : Bool := decide (p ≤ a) && decide (a < p + n)

/-- One call.  `none` when the call is not allowed: a `try_claim` violating its
assertions, or a `store` outside the region currently claimed. -/
def step (W : World) : Op → Option World
  | Op.try_claim size =>
    if try_claim_pre W.rb size then
      match try_claim W.rb size with
      | (some p, rb1) => some { W with rb := rb1, pending := some (p, size) }
      | (none, rb1) => some { W with rb := rb1 }
    else none
  | Op.store a b =>
    match W.pending with
    | some (p, n) =>
      if in_region p n a then some { W with mem := Function.update W.mem a b } else none
    | none => none
  | Op.commit =>
    match W.pending with
    | some (p, n) =>
      some { W with rb := commit W.rb, pending := none,
                    committed := W.committed ++ bytes_at W.mem p n,
                    live := W.live ++ List.range' p n }
    | none => some { W with rb := commit W.rb }
  | Op.try_read => some { W with rb := (try_read W.rb).2 }
  | Op.consume size =>
    match consume W.rb size with
    | (true, rb1) =>
      some { W with rb := rb1,
                    consumed := W.consumed ++ bytes_at W.mem W.rb.m_reader.read size,
                    live := W.live.filter (fun a => !(in_region W.rb.m_reader.read size a)) }
    | (false, rb1) => some { W with rb := rb1 }

/-- A sequence of calls, from left to right. -/
def run (W : World) : List Op → Option World
  | [] => some W
  | op :: ops => (step W op).bind (fun W1 => run W1 ops)

/-- The states of the buffer reachable from construction: the buffer lies in
the 64 bit address space and every call was allowed. -/
def Reachable (W : World) : Prop :=
  ∃ (data size : Nat) (mem : Nat → Byte) (ops : List Op),
    data + size < SIZE_MOD ∧ run (World.new data size mem) ops = some W

/-! ## The invariant of the reachable states -/

/-- The addresses between the consumer's `read` and the published `write`, in
the order the consumer meets them: one run when `read ≤ write`, otherwise the
run up to the watermark followed by the run from the start of the buffer. -/
def live_of (rb : spsc_ring_buffer) : List Nat :=
  if rb.m_reader.read ≤ rb.m_shared.write then
    List.range' rb.m_reader.read (rb.m_shared.write - rb.m_reader.read)
  else
    List.range' rb.m_reader.read (rb.m_shared.watermark - rb.m_reader.read)
      ++ List.range' rb.data (rb.m_shared.write - rb.data)

/-- The relations between the cursors that hold in every reachable state. -/
structure cursors_ok (rb : spsc_ring_buffer) : Prop where
  space : rb.data + rb.size < 18446744073709551616
  write_eq : rb.m_writer.write = rb.m_shared.write
  read_lo : rb.data ≤ rb.m_reader.read
  write_lo : rb.data ≤ rb.m_shared.write
  write_hi : rb.m_shared.write ≤ rb.data + rb.size
  wm_hi : rb.m_shared.watermark ≤ rb.data + rb.size
  sread_lo : rb.data ≤ rb.m_shared.read
  sread_hi : rb.m_shared.read ≤ rb.data + rb.size
  pw_lo : rb.data ≤ rb.m_reader.prev_write
  linear : rb.m_reader.read ≤ rb.m_shared.write →
    (rb.m_shared.read = rb.m_reader.read ∨
      (rb.m_reader.read = rb.data ∧ rb.m_shared.write < rb.m_shared.read)) ∧
    rb.m_reader.read ≤ rb.m_reader.prev_write ∧
    rb.m_reader.prev_write ≤ rb.m_shared.write
  wrapped : rb.m_shared.write < rb.m_reader.read →
    rb.m_shared.read = rb.m_reader.read ∧
    rb.m_reader.read ≤ rb.m_shared.watermark ∧
    ((rb.m_reader.read ≤ rb.m_reader.prev_write ∧
        rb.m_reader.prev_write ≤ rb.m_shared.watermark) ∨
      (rb.m_reader.prev_write < rb.m_reader.read ∧
        rb.m_reader.prev_watermark = rb.m_shared.watermark ∧
        rb.m_reader.read < rb.m_shared.watermark ∧
        rb.m_reader.prev_write ≤ rb.m_shared.write))

/-- The relation between the cursors and the region claimed and not yet
committed. -/
def pending_ok (rb : spsc_ring_buffer) : Option (Nat × Nat) → Prop
  | none => rb.m_writer.claimed = rb.m_writer.write
  | some (p, k) =>
    0 < k ∧ rb.m_writer.claimed = p + k ∧
    ((p = rb.m_writer.write ∧ p + k ≤ rb.data + rb.size ∧
        (rb.m_shared.write < rb.m_reader.read → p + k < rb.m_reader.read) ∧
        (rb.m_reader.read ≤ rb.m_shared.write → rb.m_shared.read ≠ rb.m_reader.read →
          p + k < rb.m_shared.read)) ∨
      (p = rb.data ∧ p + k < rb.m_reader.read ∧ rb.m_reader.read ≤ rb.m_shared.write ∧
        rb.m_shared.read = rb.m_reader.read))

/-- The invariant: the cursors are related as above, the shadow set of live
addresses is the one the cursors describe, and the committed bytes are the
consumed bytes followed by the bytes now stored at the live addresses. -/
structure Inv (W : World) : Prop where
  cur : cursors_ok W.rb
  pend : pending_ok W.rb W.pending
  live_eq : W.live = live_of W.rb
  fifo : W.committed = W.consumed ++ W.live.map W.mem

/-! ## Notions used in the statements -/

/-- The buffer lies in the 64 bit address space and the two cursors read by
`try_claim` point into it (one past the end included). -/
def in_buffer (rb : spsc_ring_buffer) : Prop :=
  rb.data + rb.size < 18446744073709551616 ∧
  rb.data ≤ rb.m_writer.write ∧ rb.m_writer.write ≤ rb.data + rb.size ∧
  rb.data ≤ rb.m_shared.read ∧ rb.m_shared.read ≤ rb.data + rb.size

instance (rb : spsc_ring_buffer) : Decidable (in_buffer rb) := by
  unfold in_buffer; infer_instance

/-- The tests under which `try_claim` reaches its second `return`, the one
that places the region at the start of the buffer: the test of line 43 holds,
the test of line 45 fails, the test of line 51 holds. -/
def wrap_branch (rb : spsc_ring_buffer) (size : Nat) : Prop :=
  rb.m_writer.write ≥ rb.m_shared.read ∧
  ¬ (size_t_sub rb.size size ≥ to_size_t (ptr_diff rb.m_writer.write rb.data)) ∧
  to_size_t (ptr_diff rb.m_shared.read rb.data) > size

instance (rb : spsc_ring_buffer) (size : Nat) : Decidable (wrap_branch rb size) := by
  unfold wrap_branch; infer_instance

/-- The producer's loop "call `try_claim(s)` and `commit` until `try_claim(s)`
returns no pointer": the state in which the loop stops, or `none` when `fuel`
iterations do not reach that point. -/
def fill (s : Nat) : Nat → spsc_ring_buffer → Option spsc_ring_buffer
  | 0, _ => none
  | fuel + 1, rb =>
    match try_claim rb s with
    | (some _, rb1) => fill s fuel (commit rb1)
    | (none, rb1) => some rb1

/-- A buffer in which the producer has committed `o` bytes in a row from the
start and the consumer has not been called yet. -/
def filled (data size o : Nat) : spsc_ring_buffer :=
  { data := data, size := size,
    m_reader := read_state.new data size,
    m_writer := { write := data + o, claimed := data + o, watermark := data + size },
    m_shared := { read := data, write := data + o, watermark := data + size } }

/-! ## Scenarios used to exercise the theorems -/

/-- The state after a sequence of calls from `W`, or `W` itself when one of
the calls is not allowed. -/
def run_or (W : World) (ops : List Op) : World := (run W ops).getD W

/-- The producer commits ten bytes, the consumer consumes them all. -/
def scenario_drained_ops : List Op :=
  [Op.try_claim 10, Op.store 4096 1, Op.store 4105 2, Op.commit, Op.try_read, Op.consume 10]

/-- A buffer of 16 bytes at address 4096 after `scenario_drained_ops`. -/
def scenario_drained : World :=
  run_or (World.new 4096 16 (fun _ => 0)) scenario_drained_ops

/-- The producer fills the tail while the consumer is four bytes in, then
commits a claim of three bytes that has to go to the start of the buffer. -/
def scenario_wrapped_ops : List Op :=
  [Op.try_claim 10, Op.store 4096 1, Op.store 4099 2, Op.store 4100 3, Op.commit,
   Op.try_read, Op.consume 4,
   Op.try_claim 6, Op.store 4106 4, Op.store 4111 5, Op.commit,
   Op.try_claim 3, Op.store 4096 6, Op.store 4097 7, Op.store 4098 8, Op.commit]

/-- A buffer of 16 bytes at address 4096 after `scenario_wrapped_ops`. -/
def scenario_wrapped : World :=
  run_or (World.new 4096 16 (fun _ => 0)) scenario_wrapped_ops

/-- The producer commits ten bytes, the consumer consumes four of them, the
producer commits the six bytes left at the tail. -/
def scenario_tail_ops : List Op :=
  [Op.try_claim 10, Op.store 4096 1, Op.store 4099 2, Op.store 4100 3, Op.commit,
   Op.try_read, Op.consume 4,
   Op.try_claim 6, Op.store 4106 4, Op.store 4111 5, Op.commit]

/-- A buffer of 16 bytes at address 4096 after `scenario_tail_ops`. -/
def scenario_tail : World :=
  run_or (World.new 4096 16 (fun _ => 0)) scenario_tail_ops

/-- Whether a call belongs to the consumer (`try_read` or `consume`). -/
def Op.is_consumer : Op → Bool
  | Op.try_read => true
  | Op.consume _ => true
  | _ => false

/-- The producer commits five bytes, the consumer consumes them. -/
def scenario_stuck5_ops : List Op :=
  [Op.try_claim 5, Op.commit, Op.try_read, Op.consume 5]

/-- A buffer of 16 bytes at address 4096 after `scenario_stuck5_ops`. -/
def scenario_stuck5 : World :=
  run_or (World.new 4096 16 (fun _ => 0)) scenario_stuck5_ops

/-- The producer commits sixteen bytes, the consumer consumes them. -/
def scenario_stuck16_ops : List Op :=
  [Op.try_claim 16, Op.commit, Op.try_read, Op.consume 16]

/-- A buffer of 16 bytes at address 4096 after `scenario_stuck16_ops`. -/
def scenario_stuck16 : World :=
  run_or (World.new 4096 16 (fun _ => 0)) scenario_stuck16_ops

/-- A first wrap with `write` at offset 10, then the tail is filled again and
a claim of four bytes is placed at the start, not yet committed. -/
def scenario_raise_ops : List Op :=
  [Op.try_claim 10, Op.commit, Op.try_read, Op.consume 10,
   Op.try_claim 8, Op.commit, Op.try_read, Op.consume 8,
   Op.try_claim 8, Op.commit, Op.try_read, Op.consume 8,
   Op.try_claim 4]

/-- A buffer of 16 bytes at address 4096 after `scenario_raise_ops`. -/
def scenario_raise : World :=
  run_or (World.new 4096 16 (fun _ => 0)) scenario_raise_ops

/-- The calls of `scenario_wrapped_ops` followed by one `try_read`. -/
def scenario_draining_ops : List Op :=
  scenario_wrapped_ops ++ [Op.try_read]

/-- A buffer of 16 bytes at address 4096 after `scenario_draining_ops`. -/
def scenario_draining : World :=
  run_or (World.new 4096 16 (fun _ => 0)) scenario_draining_ops

/-- The consumer has caught up with the producer and has seen it: its `read`,
its `prev_write` and the two shared cursors `read` and `write` coincide. -/
def caught_up (rb : spsc_ring_buffer) : Prop :=
  rb.m_reader.prev_write = rb.m_reader.read ∧ rb.m_shared.write = rb.m_reader.read ∧
  rb.m_shared.read = rb.m_reader.read

instance (rb : spsc_ring_buffer) : Decidable (caught_up rb) := by
  unfold caught_up; infer_instance

/-! ## Preservation of the invariant -/

theorem cursors_ok_new (data size : Nat) (h : data + size < 18446744073709551616) :
    cursors_ok (spsc_ring_buffer.new data size) := by
  constructor <;>
    simp only [spsc_ring_buffer.new, read_state.new, write_state.new, shared_state.new] <;>
    intros <;> first | omega | (simp only [true_and, and_true, true_or, or_true] <;> omega)

theorem Inv_new (data size : Nat) (mem : Nat → Byte) (h : data + size < 18446744073709551616) :
    Inv (World.new data size mem) := by
  refine ⟨cursors_ok_new data size h, rfl, ?_, rfl⟩
  simp [World.new, live_of, spsc_ring_buffer.new, read_state.new, shared_state.new]

/-- What `try_claim` does to a state satisfying the cursor relations with no
claim outstanding: a success keeps the relations, records the region and
leaves the live addresses alone; a failure changes nothing. -/
theorem try_claim_ok (rb : spsc_ring_buffer) (size : Nat)
    (hc : cursors_ok rb) (hpre : try_claim_pre rb size) :
    (∀ p rb1, try_claim rb size = (some p, rb1) →
      cursors_ok rb1 ∧ pending_ok rb1 (some (p, size)) ∧ live_of rb1 = live_of rb) ∧
    (∀ rb1, try_claim rb size = (none, rb1) → rb1 = rb) := by
  obtain ⟨d, n, ⟨r, pw, pwm⟩, ⟨w, c, wwm⟩, ⟨sr, sw, swm⟩⟩ := rb
  obtain ⟨h1, h2, h3, h4, h5, h6, h7, h8, h9, h10, h11⟩ := hc
  obtain ⟨p1, p2, p3⟩ := hpre
  simp only at h1 h2 h3 h4 h5 h6 h7 h8 h9 h10 h11 p1 p2 p3
  simp only [try_claim, set_claimed, size_t_sub, to_size_t, ptr_diff]
  constructor
  · intro p rb1 h
    split_ifs at h <;>
      simp only [Prod.mk.injEq, Option.some.injEq, reduceCtorEq, false_and] at h <;>
      obtain ⟨hp, hrb⟩ := h <;> subst hrb <;> refine ⟨?_, ?_, ?_⟩
    all_goals first
      | (simp only [live_of])
      | (simp only [pending_ok]; omega)
      | (constructor <;> simp only <;> intros <;> omega)
  · intro rb1 h
    split_ifs at h <;> simp_all

theorem range'_split (a b c : Nat) (hab : a ≤ b) (hbc : b ≤ c) :
    List.range' a (c - a) = List.range' a (b - a) ++ List.range' b (c - b) := by
  have h := List.range'_append_1 a (b - a) (c - b)
  have e1 : a + (b - a) = b := by omega
  have e2 : (c - b) + (b - a) = c - a := by omega
  rw [e1, e2] at h
  exact h.symm

theorem range'_len (a b k : Nat) (h : a + k = b) : List.range' a k = List.range' a (b - a) := by
  have e : b - a = k := by omega
  rw [e]

theorem commit_ok (rb : spsc_ring_buffer) (pend : Option (Nat × Nat))
    (hc : cursors_ok rb) (hp : pending_ok rb pend) :
    cursors_ok (commit rb) ∧ pending_ok (commit rb) none ∧
    (pend = none → commit rb = rb) ∧
    (∀ p k, pend = some (p, k) → live_of (commit rb) = live_of rb ++ List.range' p k) := by
  obtain ⟨d, n, ⟨r, pw, pwm⟩, ⟨w, c, wwm⟩, ⟨sr, sw, swm⟩⟩ := rb
  obtain ⟨h1, h2, h3, h4, h5, h6, h7, h8, h9, h10, h11⟩ := hc
  simp only at h1 h2 h3 h4 h5 h6 h7 h8 h9 h10 h11
  cases pend with
  | none =>
    simp only [pending_ok] at hp
    subst hp
    simp only [commit, ptr_diff, sub_self, lt_self_iff_false, if_false, if_true, pending_ok,
      and_true, true_implies, reduceCtorEq, false_implies, implies_true]
    constructor <;> simp only <;> intros <;> omega
  | some pk =>
    obtain ⟨p, k⟩ := pk
    simp only [pending_ok] at hp
    obtain ⟨k0, hck, hp⟩ := hp
    simp only [commit, publish_write, ptr_diff]
    split_ifs with g1 g2
    · refine ⟨?_, ?_, by simp, ?_⟩
      · constructor <;> simp only <;> intros <;> omega
      · simp only [pending_ok]
      · intro p1 k1 hpk
        simp only [Option.some.injEq, Prod.mk.injEq] at hpk
        obtain ⟨rfl, rfl⟩ := hpk
        simp only [live_of]
        have e1 : r ≤ sw := by omega
        have e2 : ¬ r ≤ c := by omega
        have e3 : p = d := by omega
        have e4 : c - d = k := by omega
        rw [if_pos e1, if_neg e2, e3, e4, h2]
    · exfalso; omega
    · refine ⟨?_, ?_, by simp, ?_⟩
      · constructor <;> simp only <;> intros <;> omega
      · simp only [pending_ok]
      · intro p1 k1 hpk
        simp only [Option.some.injEq, Prod.mk.injEq] at hpk
        obtain ⟨rfl, rfl⟩ := hpk
        simp only [live_of]
        have e3 : p = sw := by omega
        subst e3
        by_cases e1 : r ≤ p
        · have e2 : r ≤ c := by omega
          rw [if_pos e1, if_pos e2, range'_split r p c e1 (by omega), range'_len p c k (by omega)]
        · have e2 : ¬ r ≤ c := by omega
          rw [if_neg e1, if_neg e2, List.append_assoc, range'_split d p c h4 (by omega),
            range'_len p c k (by omega)]
/-- What `try_read` does to a state satisfying the cursor relations. -/
theorem try_read_ok (rb : spsc_ring_buffer) (pend : Option (Nat × Nat))
    (hc : cursors_ok rb) (hp : pending_ok rb pend) :
    cursors_ok (try_read rb).2 ∧ pending_ok (try_read rb).2 pend ∧
      live_of (try_read rb).2 = live_of rb := by
  obtain ⟨d, n, ⟨r, pw, pwm⟩, ⟨w, c, wwm⟩, ⟨sr, sw, swm⟩⟩ := rb
  obtain ⟨h1, h2, h3, h4, h5, h6, h7, h8, h9, h10, h11⟩ := hc
  simp only at h1 h2 h3 h4 h5 h6 h7 h8 h9 h10 h11
  simp only [try_read]
  split_ifs with g1 g2
  · refine ⟨?_, ?_, ?_⟩
    · constructor <;> simp only <;> intros <;>
        first | omega | (simp only [true_and, and_true, true_or, or_true] <;> omega)
    · cases pend with
      | none => exact hp
      | some pk => obtain ⟨p, k⟩ := pk; simp only [pending_ok] at hp ⊢; omega
    · simp only [live_of]
  · refine ⟨?_, ?_, ?_⟩
    · constructor <;> simp only <;> intros <;>
        first | omega | (simp only [true_and, and_true, true_or, or_true] <;> omega)
    · cases pend with
      | none => exact hp
      | some pk => obtain ⟨p, k⟩ := pk; simp only [pending_ok] at hp ⊢; omega
    · simp only [live_of]
      have e1 : ¬ r ≤ sw := by omega
      have e2 : d ≤ sw := h4
      have e3 : swm - r = 0 := by omega
      rw [if_neg e1, if_pos e2, e3, List.range'_zero, List.nil_append]
  · refine ⟨?_, ?_, ?_⟩
    · constructor <;> simp only <;> intros <;>
        first | omega | (simp only [true_and, and_true, true_or, or_true] <;> omega)
    · cases pend with
      | none => exact hp
      | some pk => obtain ⟨p, k⟩ := pk; simp only [pending_ok] at hp ⊢; omega
    · simp only [live_of]

/-- The region claimed and not yet committed holds no live address. -/
theorem pending_not_live (rb : spsc_ring_buffer) (p k a : Nat)
    (hc : cursors_ok rb) (hp : pending_ok rb (some (p, k)))
    (ha : p ≤ a ∧ a < p + k) : a ∉ live_of rb := by
  obtain ⟨d, n, ⟨r, pw, pwm⟩, ⟨w, c, wwm⟩, ⟨sr, sw, swm⟩⟩ := rb
  obtain ⟨h1, h2, h3, h4, h5, h6, h7, h8, h9, h10, h11⟩ := hc
  simp only at h1 h2 h3 h4 h5 h6 h7 h8 h9 h10 h11
  simp only [pending_ok] at hp
  simp only [live_of]
  split_ifs with g1
  · simp only [List.mem_range'_1]; omega
  · simp only [List.mem_append, List.mem_range'_1]; omega

theorem range'_cut (a k c : Nat) (h : a + k ≤ c) :
    List.range' a (c - a) = List.range' a k ++ List.range' (a + k) (c - (a + k)) := by
  have h1 := range'_split a (a + k) c (by omega) h
  have e : a + k - a = k := by omega
  rw [e] at h1
  exact h1

/-- What `consume` does to a state satisfying the cursor relations: a failure
changes nothing; a success keeps the relations and removes from the live
addresses exactly the `size` addresses starting at the old `read`, which are
the first `size` of them. -/
theorem consume_ok (rb : spsc_ring_buffer) (pend : Option (Nat × Nat)) (size : Nat)
    (hc : cursors_ok rb) (hp : pending_ok rb pend) :
    (∀ rb1, consume rb size = (false, rb1) → rb1 = rb) ∧
    (∀ rb1, consume rb size = (true, rb1) →
      cursors_ok rb1 ∧ pending_ok rb1 pend ∧
      live_of rb = List.range' rb.m_reader.read size ++ live_of rb1 ∧
      ∀ a ∈ live_of rb1, ¬ (rb.m_reader.read ≤ a ∧ a < rb.m_reader.read + size)) := by
  obtain ⟨d, n, ⟨r, pw, pwm⟩, ⟨w, c, wwm⟩, ⟨sr, sw, swm⟩⟩ := rb
  obtain ⟨h1, h2, h3, h4, h5, h6, h7, h8, h9, h10, h11⟩ := hc
  simp only at h1 h2 h3 h4 h5 h6 h7 h8 h9 h10 h11
  simp only [consume, publish_read, set_read, to_size_t, ptr_diff]
  constructor
  · intro rb1 h
    split_ifs at h <;> simp_all
  · intro rb1 h
    split_ifs at h with g1 g2 g3 g4 <;>
      simp only [Prod.mk.injEq, Bool.false_eq_true, false_and, true_and] at h <;>
      subst h <;> refine ⟨?_, ?_, ?_, ?_⟩
    · constructor <;> simp only <;> intros <;>
        first | omega | (simp only [true_and, and_true, true_or, or_true] <;> omega)
    · cases pend with
      | none => exact hp
      | some pk =>
        obtain ⟨p, k⟩ := pk
        simp only [pending_ok] at hp ⊢
        first | omega | (simp only [true_and, and_true, true_or, or_true] <;> omega)
    · simp only [live_of]
      by_cases e1 : r ≤ sw
      · have e2 : r + size ≤ sw := by omega
        rw [if_pos e1, if_pos e2, range'_cut r size sw e2]
      · have e2 : ¬ r + size ≤ sw := by omega
        rw [if_neg e1, if_neg e2, range'_cut r size swm (by omega), List.append_assoc]
    · simp only [live_of]
      intro a ha
      split_ifs at ha <;> simp only [List.mem_append, List.mem_range'_1] at ha <;> omega
    · constructor <;> simp only <;> intros <;>
        first | omega | (simp only [true_and, and_true, true_or, or_true] <;> omega)
    · cases pend with
      | none => exact hp
      | some pk =>
        obtain ⟨p, k⟩ := pk
        simp only [pending_ok] at hp ⊢
        first | omega | (simp only [true_and, and_true, true_or, or_true] <;> omega)
    · simp only [live_of]
      have e1 : ¬ r ≤ sw := by omega
      have e2 : d ≤ sw := h4
      have e3 : swm - r = size := by omega
      rw [if_neg e1, if_pos e2, e3]
    · simp only [live_of]
      intro a ha
      split_ifs at ha <;> simp only [List.mem_append, List.mem_range'_1] at ha <;> omega
    · constructor <;> simp only <;> intros <;>
        first | omega | (simp only [true_and, and_true, true_or, or_true] <;> omega)
    · cases pend with
      | none => exact hp
      | some pk =>
        obtain ⟨p, k⟩ := pk
        simp only [pending_ok] at hp ⊢
        first | omega | (simp only [true_and, and_true, true_or, or_true] <;> omega)
    · simp only [live_of]
      have e1 : ¬ r ≤ sw := by omega
      have e2 : ¬ r + size ≤ sw := by omega
      rw [if_neg e1, if_neg e2, range'_cut r size swm (by omega), List.append_assoc]
    · simp only [live_of]
      intro a ha
      split_ifs at ha <;> simp only [List.mem_append, List.mem_range'_1] at ha <;> omega

/-- A claimed and not yet committed region shows in the producer's cursors. -/
theorem pending_claimed_ne (rb : spsc_ring_buffer) (pk : Nat × Nat)
    (hc : cursors_ok rb) (hp : pending_ok rb (some pk)) :
    rb.m_writer.write ≠ rb.m_writer.claimed := by
  obtain ⟨d, n, ⟨r, pw, pwm⟩, ⟨w, c, wwm⟩, ⟨sr, sw, swm⟩⟩ := rb
  obtain ⟨h1, h2, h3, h4, h5, h6, h7, h8, h9, h10, h11⟩ := hc
  obtain ⟨p, k⟩ := pk
  simp only at h1 h2 h3 h4 h5 h6 h7 h8 h9 h10 h11
  simp only [pending_ok] at hp
  simp only
  omega

theorem filter_consumed (r size : Nat) (L : List Nat)
    (hL : ∀ a ∈ L, ¬ (r ≤ a ∧ a < r + size)) :
    (List.range' r size ++ L).filter (fun a => !(in_region r size a)) = L := by
  rw [List.filter_append]
  have h1 : (List.range' r size).filter (fun a => !(in_region r size a)) = [] := by
    rw [List.filter_eq_nil_iff]
    intro a ha
    simp only [List.mem_range'_1] at ha
    simp [in_region, ha.1, ha.2]
  have h2 : L.filter (fun a => !(in_region r size a)) = L := by
    rw [List.filter_eq_self]
    intro a ha
    have := hL a ha
    simp only [in_region, Bool.not_eq_true', Bool.and_eq_false_iff, decide_eq_false_iff_not]
    omega
  rw [h1, h2, List.nil_append]

/-- Every allowed call keeps the invariant. -/
theorem Inv_step (W W1 : World) (op : Op) (hI : Inv W) (hs : step W op = some W1) : Inv W1 := by
  obtain ⟨hc, hp, hl, hf⟩ := hI
  obtain ⟨rb, mem, pending, committed, consumed, live⟩ := W
  simp only at hc hp hl hf
  cases op with
  | try_claim size =>
    simp only [step] at hs
    split_ifs at hs with hpre
    have hnone : pending = none := by
      cases pending with
      | none => rfl
      | some pk => exact absurd hpre.2.2 (pending_claimed_ne rb pk hc hp)
    subst hnone
    have hok := try_claim_ok rb size hc hpre
    rcases hres : try_claim rb size with ⟨_ | p, rb1⟩
    · rw [hres] at hs
      simp only [Option.some.injEq] at hs
      subst hs
      have e := hok.2 rb1 hres
      subst e
      exact ⟨hc, hp, hl, hf⟩
    · rw [hres] at hs
      simp only [Option.some.injEq] at hs
      subst hs
      obtain ⟨a1, a2, a3⟩ := hok.1 p rb1 hres
      exact ⟨a1, a2, by simp only; rw [a3]; exact hl, hf⟩
  | store a b =>
    simp only [step] at hs
    cases pending with
    | none => simp at hs
    | some pk =>
      obtain ⟨p, k⟩ := pk
      simp only at hs
      split_ifs at hs with hreg
      simp only [Option.some.injEq] at hs
      subst hs
      refine ⟨hc, hp, hl, ?_⟩
      simp only
      rw [hf]
      congr 1
      apply List.map_congr_left
      intro x hx
      have hne : x ≠ a := by
        intro e
        subst e
        rw [hl] at hx
        simp only [in_region, Bool.and_eq_true, decide_eq_true_eq] at hreg
        exact pending_not_live rb p k x hc hp hreg hx
      rw [Function.update_noteq hne]
  | commit =>
    simp only [step] at hs
    have hok := commit_ok rb pending hc hp
    cases pending with
    | none =>
      simp only [Option.some.injEq] at hs
      subst hs
      refine ⟨hok.1, hok.2.1, ?_, hf⟩
      simp only
      rw [hok.2.2.1 rfl]
      exact hl
    | some pk =>
      obtain ⟨p, k⟩ := pk
      simp only [Option.some.injEq] at hs
      subst hs
      refine ⟨hok.1, hok.2.1, ?_, ?_⟩
      · simp only
        rw [hok.2.2.2 p k rfl, hl]
      · simp only [bytes_at]
        rw [hf, List.map_append, List.append_assoc]
  | try_read =>
    simp only [step, Option.some.injEq] at hs
    subst hs
    obtain ⟨a1, a2, a3⟩ := try_read_ok rb pending hc hp
    exact ⟨a1, a2, by simp only; rw [a3]; exact hl, hf⟩
  | consume size =>
    simp only [step] at hs
    have hok := consume_ok rb pending size hc hp
    rcases hres : consume rb size with ⟨_ | _, rb1⟩
    · rw [hres] at hs
      simp only [Option.some.injEq] at hs
      subst hs
      have e := hok.1 rb1 hres
      subst e
      exact ⟨hc, hp, hl, hf⟩
    · rw [hres] at hs
      simp only [Option.some.injEq] at hs
      subst hs
      obtain ⟨a1, a2, a3, a4⟩ := hok.2 rb1 hres
      have hfl : live.filter (fun a => !(in_region rb.m_reader.read size a)) = live_of rb1 := by
        rw [hl, a3]
        exact filter_consumed _ _ _ a4
      refine ⟨a1, a2, hfl, ?_⟩
      simp only
      rw [hfl, hf, hl, a3, List.map_append, bytes_at, List.append_assoc]

/-- Every allowed sequence of calls keeps the invariant. -/
theorem Inv_run (ops : List Op) (W W1 : World) (hI : Inv W) (hr : run W ops = some W1) :
    Inv W1 := by
  induction ops generalizing W with
  | nil =>
    simp only [run, Option.some.injEq] at hr
    subst hr
    exact hI
  | cons op ops ih =>
    simp only [run] at hr
    cases hs : step W op with
    | none => rw [hs] at hr; simp at hr
    | some W2 =>
      rw [hs] at hr
      exact ih W2 (Inv_step W W2 op hI hs) hr

/-- The invariant holds in every reachable state. -/
theorem Inv_of_Reachable (W : World) (h : Reachable W) : Inv W := by
  obtain ⟨data, size, mem, ops, hsp, hr⟩ := h
  exact Inv_run ops _ W (Inv_new data size mem hsp) hr

/-! ## The claims -/

/-- C1 (FIFO order preservation).  In every state reachable from construction
by allowed calls, with the producer storing arbitrary bytes into the region it
has claimed before committing it, the concatenation of the consumed bytes is a
prefix of the concatenation of the committed payloads, and the two are equal
when no committed address is left unconsumed. -/
theorem fifo_order (W : World) (hR : Reachable W) :
    W.consumed <+: W.committed ∧ (W.live = [] → W.consumed = W.committed) := by
  have hI := Inv_of_Reachable W hR
  constructor
  · exact ⟨W.live.map W.mem, hI.fifo.symm⟩
  · intro hl
    rw [hI.fifo, hl, List.map_nil, List.append_nil]

theorem fifo_order_witness :
    Reachable scenario_wrapped ∧
    scenario_wrapped.consumed = [1, 0, 0, 2] ∧
    scenario_wrapped.committed = [1, 0, 0, 2, 3, 0, 0, 0, 0, 0, 4, 0, 0, 0, 0, 5, 6, 7, 8] ∧
    (scenario_wrapped.consumed <+: scenario_wrapped.committed ∧
      (scenario_wrapped.live = [] → scenario_wrapped.consumed = scenario_wrapped.committed)) :=
  ⟨⟨4096, 16, fun _ => 0, scenario_wrapped_ops, by decide, rfl⟩, by decide, by decide,
    fifo_order scenario_wrapped ⟨4096, 16, fun _ => 0, scenario_wrapped_ops, by decide, rfl⟩⟩

/-- C2 (no overlap).  In every reachable state, the region returned by a
successful `try_claim(size)` called under its assertions holds no address of a
byte that is committed and not yet consumed. -/
theorem no_overlap (W : World) (hR : Reachable W) (size p : Nat) (rb1 : spsc_ring_buffer)
    (hpre : try_claim_pre W.rb size) (hres : try_claim W.rb size = (some p, rb1)) :
    ∀ a, p ≤ a → a < p + size → a ∉ W.live := by
  have hI := Inv_of_Reachable W hR
  obtain ⟨a1, a2, a3⟩ := (try_claim_ok W.rb size hI.cur hpre).1 p rb1 hres
  intro a h1 h2
  rw [hI.live_eq, ← a3]
  exact pending_not_live rb1 p size a a1 a2 ⟨h1, h2⟩

theorem no_overlap_witness :
    scenario_tail.live =
      [4100, 4101, 4102, 4103, 4104, 4105, 4106, 4107, 4108, 4109, 4110, 4111] ∧
    try_claim scenario_tail.rb 3 = (some 4096, set_claimed scenario_tail.rb 4099) ∧
    ∀ a, 4096 ≤ a → a < 4096 + 3 → a ∉ scenario_tail.live :=
  ⟨by decide, by decide,
    no_overlap scenario_tail ⟨4096, 16, fun _ => 0, scenario_tail_ops, by decide, rfl⟩
      3 4096 (set_claimed scenario_tail.rb 4099) (by decide) (by decide)⟩

theorem in_buffer_of_cursors_ok (rb : spsc_ring_buffer) (hc : cursors_ok rb) : in_buffer rb := by
  obtain ⟨h1, h2, h3, h4, h5, h6, h7, h8, h9, h10, h11⟩ := hc
  refine ⟨h1, ?_, ?_, h7, h8⟩ <;> omega

/-- Every reachable state lies in the address space with `write` and the
shared `read` pointing into the buffer. -/
theorem in_buffer_of_Reachable (W : World) (h : Reachable W) : in_buffer W.rb :=
  in_buffer_of_cursors_ok W.rb (Inv_of_Reachable W h).cur

/-- C3 (decision table of `try_claim`).  For a buffer inside the address space
whose `write` and shared `read` point into it, with `write == claimed` and
`0 < size <= capacity`: if `write >= read` and the tail space
`base + capacity - write` is at least `size`, the result is `write` and
`claimed` becomes `write + size`; else if `write >= read` and `read - base >
size`, the result is `base` and `claimed` becomes `base + size`; else if
`write < read` and `read - write > size`, the result is `write` and `claimed`
becomes `write + size`; otherwise there is no pointer and no change. -/
theorem try_claim_table (rb : spsc_ring_buffer) (size : Nat)
    (hb : in_buffer rb) (hpre : try_claim_pre rb size) :
    try_claim rb size =
      if rb.m_writer.write ≥ rb.m_shared.read ∧
          rb.data + rb.size - rb.m_writer.write ≥ size then
        (some rb.m_writer.write, set_claimed rb (rb.m_writer.write + size))
      else if rb.m_writer.write ≥ rb.m_shared.read ∧ rb.m_shared.read - rb.data > size then
        (some rb.data, set_claimed rb (rb.data + size))
      else if rb.m_writer.write < rb.m_shared.read ∧
          rb.m_shared.read - rb.m_writer.write > size then
        (some rb.m_writer.write, set_claimed rb (rb.m_writer.write + size))
      else
        (none, rb) := by
  obtain ⟨d, n, ⟨r, pw, pwm⟩, ⟨w, c, wwm⟩, ⟨sr, sw, swm⟩⟩ := rb
  obtain ⟨b1, b2, b3, b4, b5⟩ := hb
  obtain ⟨p1, p2, p3⟩ := hpre
  simp only at b1 b2 b3 b4 b5 p1 p2 p3
  simp only [try_claim, size_t_sub, to_size_t, ptr_diff]
  split_ifs <;> first | rfl | (exfalso; omega)

theorem try_claim_table_witness :
    try_claim (spsc_ring_buffer.mk 4096 16 ⟨4100, 4106, 4112⟩ ⟨4112, 4112, 4112⟩
        ⟨4100, 4112, 4112⟩) 3 =
      (some 4096, spsc_ring_buffer.mk 4096 16 ⟨4100, 4106, 4112⟩ ⟨4112, 4099, 4112⟩
        ⟨4100, 4112, 4112⟩) :=
  (try_claim_table (spsc_ring_buffer.mk 4096 16 ⟨4100, 4106, 4112⟩ ⟨4112, 4112, 4112⟩
      ⟨4100, 4112, 4112⟩) 3 (by decide) (by decide)).trans (by decide)

/-- C4 (`commit` after a successful `try_claim`).  In every reachable state,
when `try_claim(size)` called under its assertions returns `p`, the `commit`
that follows sets the producer's `write` and the shared `write` to `p + size`;
when the claim was placed by the wrap branch (the tail is too short and `p` is
the start of the buffer) the shared watermark becomes the `write` position
before the commit, and otherwise the shared watermark is unchanged. -/
theorem commit_after_claim (W : World) (hR : Reachable W) (size p : Nat)
    (rb1 : spsc_ring_buffer) (hpre : try_claim_pre W.rb size)
    (hres : try_claim W.rb size = (some p, rb1)) :
    (commit rb1).m_writer.write = p + size ∧
    (commit rb1).m_shared.write = p + size ∧
    (wrap_branch W.rb size →
      p = W.rb.data ∧ ¬ (W.rb.m_writer.write + size ≤ W.rb.data + W.rb.size) ∧
      (commit rb1).m_shared.watermark = W.rb.m_writer.write) ∧
    (¬ wrap_branch W.rb size →
      (commit rb1).m_shared.watermark = W.rb.m_shared.watermark) := by
  have hc := (Inv_of_Reachable W hR).cur
  generalize W.rb = rb at hc hpre hres
  obtain ⟨d, n, ⟨r, pw, pwm⟩, ⟨w, c, wwm⟩, ⟨sr, sw, swm⟩⟩ := rb
  obtain ⟨h1, h2, h3, h4, h5, h6, h7, h8, h9, h10, h11⟩ := hc
  obtain ⟨p1, p2, p3⟩ := hpre
  simp only at h1 h2 h3 h4 h5 h6 h7 h8 h9 h10 h11 p1 p2 p3
  simp only [try_claim, set_claimed, size_t_sub, to_size_t, ptr_diff] at hres
  simp only [wrap_branch, size_t_sub, to_size_t, ptr_diff]
  split_ifs at hres with g1 g2 g3 g4 <;>
    simp only [Prod.mk.injEq, Option.some.injEq, reduceCtorEq, false_and] at hres <;>
    obtain ⟨hp, hrb⟩ := hres <;> subst hrb <;> subst hp <;>
    simp only [commit, publish_write, ptr_diff] <;>
    split_ifs <;> first
      | (exfalso; omega)
      | (refine ⟨?_, ?_, ?_, ?_⟩ <;> intros <;> first
          | rfl
          | omega
          | (refine ⟨trivial, ?_, ?_⟩ <;> first | rfl | omega))

theorem commit_after_claim_witness :
    wrap_branch scenario_tail.rb 3 ∧
    (commit (set_claimed scenario_tail.rb 4099)).m_writer.write = 4096 + 3 ∧
    (commit (set_claimed scenario_tail.rb 4099)).m_shared.write = 4096 + 3 ∧
    (wrap_branch scenario_tail.rb 3 →
      4096 = scenario_tail.rb.data ∧
      ¬ (scenario_tail.rb.m_writer.write + 3 ≤ scenario_tail.rb.data + scenario_tail.rb.size) ∧
      (commit (set_claimed scenario_tail.rb 4099)).m_shared.watermark =
        scenario_tail.rb.m_writer.write) ∧
    (¬ wrap_branch scenario_tail.rb 3 →
      (commit (set_claimed scenario_tail.rb 4099)).m_shared.watermark =
        scenario_tail.rb.m_shared.watermark) :=
  ⟨by decide,
    commit_after_claim scenario_tail
      ⟨4096, 16, fun _ => 0, scenario_tail_ops, by decide, rfl⟩
      3 4096 (set_claimed scenario_tail.rb 4099) (by decide) (by decide)⟩

/-- C5 (decision table of `try_read`).  For every state, with `prev_write` the
shared `write` and `read` the consumer's private cursor: if `prev_write >=
read` the result is `(read, prev_write)` and `read` is unchanged; otherwise,
with `prev_watermark` the shared watermark, if `read == prev_watermark` the
private `read` becomes `base` and the result is `(base, prev_write)`;
otherwise the result is `(read, prev_watermark)` and `read` is unchanged.  The
shared cursors are never changed. -/
theorem try_read_table (rb : spsc_ring_buffer) :
    (try_read rb).1 =
      (if rb.m_shared.write ≥ rb.m_reader.read then (rb.m_reader.read, rb.m_shared.write)
       else if rb.m_reader.read = rb.m_shared.watermark then (rb.data, rb.m_shared.write)
       else (rb.m_reader.read, rb.m_shared.watermark)) ∧
    (try_read rb).2.m_reader.read =
      (if rb.m_shared.write ≥ rb.m_reader.read then rb.m_reader.read
       else if rb.m_reader.read = rb.m_shared.watermark then rb.data
       else rb.m_reader.read) ∧
    (try_read rb).2.m_shared = rb.m_shared := by
  simp only [try_read]
  split_ifs <;> exact ⟨rfl, rfl, rfl⟩

/-- A failed `consume` changes nothing, whatever the state. -/
theorem consume_false_unchanged (rb : spsc_ring_buffer) (size : Nat)
    (h : (consume rb size).1 = false) : (consume rb size).2 = rb := by
  simp only [consume] at h ⊢
  split_ifs at h ⊢ <;> first | rfl | simp at h

/-- C6 (over-consume rejection).  In every reachable state, when `try_read`
returns `(start, end)` (then `start <= end`) and `consume(size)` is called
right after it, `consume` returns true exactly when `size <= end - start`; in
particular `consume(end - start + 1)` returns false; and a `consume` that
returns false leaves every field of the state as it was. -/
theorem over_consume_rejected (W : World) (hR : Reachable W) (size : Nat) :
    (try_read W.rb).1.1 ≤ (try_read W.rb).1.2 ∧
    ((consume (try_read W.rb).2 size).1 = true ↔
      size ≤ (try_read W.rb).1.2 - (try_read W.rb).1.1) ∧
    (consume (try_read W.rb).2 ((try_read W.rb).1.2 - (try_read W.rb).1.1 + 1)).1 = false ∧
    ((consume (try_read W.rb).2 size).1 = false →
      (consume (try_read W.rb).2 size).2 = (try_read W.rb).2) := by
  have hc := (Inv_of_Reachable W hR).cur
  refine ⟨?_, ?_, ?_, consume_false_unchanged _ _⟩
  all_goals
    generalize W.rb = rb at hc
    obtain ⟨d, n, ⟨r, pw, pwm⟩, ⟨w, c, wwm⟩, ⟨sr, sw, swm⟩⟩ := rb
    obtain ⟨h1, h2, h3, h4, h5, h6, h7, h8, h9, h10, h11⟩ := hc
    simp only at h1 h2 h3 h4 h5 h6 h7 h8 h9 h10 h11
    simp only [try_read]
    split_ifs with g1 g2 <;> simp only [consume, to_size_t, ptr_diff]
  · omega
  · omega
  · omega
  · split_ifs <;> simp only [reduceCtorEq, Bool.false_eq_true, false_iff, true_iff] <;> omega
  · split_ifs <;> simp only [reduceCtorEq, Bool.false_eq_true, false_iff, true_iff] <;> omega
  · split_ifs <;> simp only [reduceCtorEq, Bool.false_eq_true, false_iff, true_iff] <;> omega
  · split_ifs <;> first | rfl | (exfalso; omega)
  · split_ifs <;> first | rfl | (exfalso; omega)
  · split_ifs <;> first | rfl | (exfalso; omega)

theorem over_consume_rejected_witness :
    (try_read scenario_wrapped.rb).1 = (4100, 4112) ∧
    ((try_read scenario_wrapped.rb).1.1 ≤ (try_read scenario_wrapped.rb).1.2 ∧
    ((consume (try_read scenario_wrapped.rb).2 13).1 = true ↔
      13 ≤ (try_read scenario_wrapped.rb).1.2 - (try_read scenario_wrapped.rb).1.1) ∧
    (consume (try_read scenario_wrapped.rb).2
      ((try_read scenario_wrapped.rb).1.2 - (try_read scenario_wrapped.rb).1.1 + 1)).1 = false ∧
    ((consume (try_read scenario_wrapped.rb).2 13).1 = false →
      (consume (try_read scenario_wrapped.rb).2 13).2 = (try_read scenario_wrapped.rb).2)) :=
  ⟨by decide,
    over_consume_rejected scenario_wrapped
      ⟨4096, 16, fun _ => 0, scenario_wrapped_ops, by decide, rfl⟩ 13⟩

/-- C7 (wrap on the consumer side).  In every reachable state in which the
shared `write` is below the consumer's `read`: if `read < watermark`, then
`try_read` returns exactly `(read, watermark)` and leaves `read` alone, a
following `consume(k)` with `k < watermark - read` succeeds and moves the
private and the shared `read` to `read + k`, a following
`consume(watermark - read)` succeeds and sets both to `base`, and the next
`try_read` returns `(base, write)`.  Moreover `read` is reset to `base` only
when nothing below the watermark is left: by `try_read` only if `read ==
watermark`, by a successful `consume(k)` (with or without a `try_read` before
it) only if `read + k == watermark`. -/
theorem wrap_consumer (W : World) (hR : Reachable W)
    (hw : W.rb.m_shared.write < W.rb.m_reader.read) :
    (W.rb.m_reader.read < W.rb.m_shared.watermark →
      (try_read W.rb).1 = (W.rb.m_reader.read, W.rb.m_shared.watermark) ∧
      (try_read W.rb).2.m_reader.read = W.rb.m_reader.read ∧
      (∀ k, k < W.rb.m_shared.watermark - W.rb.m_reader.read →
        (consume (try_read W.rb).2 k).1 = true ∧
        (consume (try_read W.rb).2 k).2.m_reader.read = W.rb.m_reader.read + k ∧
        (consume (try_read W.rb).2 k).2.m_shared.read = W.rb.m_reader.read + k) ∧
      (consume (try_read W.rb).2 (W.rb.m_shared.watermark - W.rb.m_reader.read)).1 = true ∧
      (consume (try_read W.rb).2
        (W.rb.m_shared.watermark - W.rb.m_reader.read)).2.m_reader.read = W.rb.data ∧
      (consume (try_read W.rb).2
        (W.rb.m_shared.watermark - W.rb.m_reader.read)).2.m_shared.read = W.rb.data ∧
      (try_read (consume (try_read W.rb).2
        (W.rb.m_shared.watermark - W.rb.m_reader.read)).2).1 =
          (W.rb.data, W.rb.m_shared.write)) ∧
    ((try_read W.rb).2.m_reader.read = W.rb.data →
      W.rb.m_reader.read = W.rb.m_shared.watermark) ∧
    (∀ k, (consume W.rb k).1 = true → (consume W.rb k).2.m_reader.read = W.rb.data →
      W.rb.m_reader.read + k = W.rb.m_shared.watermark) ∧
    (∀ k, (consume (try_read W.rb).2 k).1 = true →
      (consume (try_read W.rb).2 k).2.m_reader.read = W.rb.data →
      W.rb.m_reader.read + k = W.rb.m_shared.watermark) := by
  have hc := (Inv_of_Reachable W hR).cur
  generalize W.rb = rb at hc hw
  obtain ⟨d, n, ⟨r, pw, pwm⟩, ⟨w, c, wwm⟩, ⟨sr, sw, swm⟩⟩ := rb
  obtain ⟨h1, h2, h3, h4, h5, h6, h7, h8, h9, h10, h11⟩ := hc
  simp only at h1 h2 h3 h4 h5 h6 h7 h8 h9 h10 h11 hw
  have e1 : ¬ sw ≥ r := by omega
  refine ⟨?_, ?_, ?_, ?_⟩
  · intro hlt
    simp only at hlt
    have e2 : ¬ r = swm := by omega
    simp only [try_read, if_neg e1, if_neg e2, true_and]
    refine ⟨?_, ?_, ?_, ?_, ?_⟩
    · intro k hk
      simp only [consume, publish_read, set_read, to_size_t, ptr_diff]
      split_ifs <;> first | (exfalso; omega) | exact ⟨rfl, rfl, rfl⟩
    · simp only [consume, publish_read, set_read, to_size_t, ptr_diff]
      split_ifs <;> first | (exfalso; omega) | rfl
    · simp only [consume, publish_read, set_read, to_size_t, ptr_diff]
      split_ifs <;> first | (exfalso; omega) | rfl
    · simp only [consume, publish_read, set_read, to_size_t, ptr_diff]
      split_ifs <;> first | (exfalso; omega) | rfl
    · simp only [consume, publish_read, set_read, to_size_t, ptr_diff]
      split_ifs <;> first
        | (exfalso; omega)
        | (simp only [try_read] <;> split_ifs <;> first | (exfalso; omega) | rfl)
  · simp only [try_read, if_neg e1]
    split_ifs with g <;> intro h <;> first | exact g | (simp only at h; omega)
  · intro k
    simp only [consume, publish_read, set_read, to_size_t, ptr_diff]
    split_ifs <;> simp only [Bool.false_eq_true, false_implies, true_implies] <;> omega
  · intro k
    simp only [try_read, if_neg e1]
    split_ifs <;> simp only [consume, publish_read, set_read, to_size_t, ptr_diff] <;>
      split_ifs <;> simp only [Bool.false_eq_true, false_implies, true_implies] <;> omega

theorem wrap_consumer_witness :
    scenario_wrapped.rb.m_shared.write = 4099 ∧
    scenario_wrapped.rb.m_reader.read = 4100 ∧
    scenario_wrapped.rb.m_shared.watermark = 4112 ∧
    (try_read scenario_wrapped.rb).1 = (4100, 4112) ∧
    (consume (try_read scenario_wrapped.rb).2 12).2.m_shared.read = 4096 ∧
    (try_read (consume (try_read scenario_wrapped.rb).2 12).2).1 = (4096, 4099) :=
  have h := wrap_consumer scenario_wrapped
    ⟨4096, 16, fun _ => 0, scenario_wrapped_ops, by decide, rfl⟩ (by decide)
  ⟨by decide, by decide, by decide, (h.1 (by decide)).1, (h.1 (by decide)).2.2.2.2.2.1,
    (h.1 (by decide)).2.2.2.2.2.2⟩

theorem filled_zero (data size : Nat) : filled data size 0 = spsc_ring_buffer.new data size := rfl

/-- The filling loop started with `o` bytes committed stops after `m` more
claims when `m` more fit and `m + 1` do not. -/
theorem fill_loop (data C s : Nat) (hs : 0 < s) (hsC : s ≤ C)
    (hsp : data + C < 18446744073709551616) :
    ∀ (m o fuel : Nat), o + m * s ≤ C → C < o + (m + 1) * s → m < fuel →
      fill s fuel (filled data C o) = some (filled data C (o + m * s)) := by
  intro m
  induction m with
  | zero =>
    intro o fuel h1 h2 h3
    obtain ⟨f, rfl⟩ : ∃ f, fuel = f + 1 := ⟨fuel - 1, by omega⟩
    simp only [Nat.zero_mul, Nat.add_zero, Nat.zero_add, Nat.one_mul] at h1 h2 ⊢
    have e : try_claim (filled data C o) s = (none, filled data C o) := by
      simp only [try_claim, filled, read_state.new, size_t_sub, to_size_t, ptr_diff]
      split_ifs <;> first | rfl | (exfalso; omega)
    simp only [fill, e]
  | succ m ih =>
    intro o fuel h1 h2 h3
    obtain ⟨f, rfl⟩ : ∃ f, fuel = f + 1 := ⟨fuel - 1, by omega⟩
    have hm : (m + 1) * s = m * s + s := Nat.succ_mul m s
    have hm2 : (m + 1 + 1) * s = (m + 1) * s + s := Nat.succ_mul (m + 1) s
    have e : try_claim (filled data C o) s =
        (some (data + o), set_claimed (filled data C o) (data + o + s)) := by
      simp only [try_claim, filled, read_state.new, size_t_sub, to_size_t, ptr_diff]
      split_ifs <;> first | rfl | (exfalso; omega)
    have e2 : commit (set_claimed (filled data C o) (data + o + s)) = filled data C (o + s) := by
      simp only [commit, set_claimed, publish_write, filled, read_state.new, ptr_diff]
      split_ifs <;> first | (exfalso; omega) | (simp only [Nat.add_assoc])
    have e3 : o + (m + 1) * s = o + s + m * s := by omega
    simp only [fill, e, e2]
    rw [e3]
    exact ih (o + s) f (by omega) (by omega) (by omega)

/-- C8 (full buffer), as amended.  For every capacity `C` and message size `s`
with `0 < s <= C`, the loop "`try_claim(s)`, `commit`" on a fresh buffer stops
(within `C / s + 1` iterations) with `(C / s) * s` bytes committed; after
`try_read` and one `consume(s)`, which succeeds and frees exactly `s` bytes,
the next `try_claim(s)` is a legal call that still returns no pointer; after
`try_read` and one `consume(k)` freeing `k` bytes with `s < k <= (C / s) * s`,
the next `try_claim(s)` returns the start of the buffer. -/
theorem full_buffer_refill (data C s fuel : Nat) (hs : 0 < s) (hsC : s ≤ C)
    (hsp : data + C < SIZE_MOD) (hfuel : C / s < fuel) :
    ∃ rb, fill s fuel (spsc_ring_buffer.new data C) = some rb ∧
      rb.m_shared.write = data + (C / s) * s ∧
      (consume (try_read rb).2 s).1 = true ∧
      try_claim_pre (consume (try_read rb).2 s).2 s ∧
      (try_claim (consume (try_read rb).2 s).2 s).1 = none ∧
      ∀ k, s < k → k ≤ (C / s) * s →
        (consume (try_read rb).2 k).1 = true ∧
        try_claim_pre (consume (try_read rb).2 k).2 s ∧
        (try_claim (consume (try_read rb).2 k).2 s).1 = some data := by
  have hsp1 : data + C < 18446744073709551616 := hsp
  have a1 : C / s * s ≤ C := Nat.div_mul_le_self C s
  have a2 : C < C / s * s + s := Nat.lt_div_mul_add hs
  have a3 : 0 < C / s := Nat.div_pos hsC hs
  have a4 : s ≤ C / s * s := Nat.le_mul_of_pos_left s a3
  have hloop := fill_loop data C s hs hsC hsp1 (C / s) 0 fuel (by omega)
    (by rw [Nat.succ_mul]; omega) hfuel
  rw [filled_zero, Nat.zero_add] at hloop
  generalize C / s * s = F at a1 a2 a4 hloop
  have tr : try_read (filled data C F) =
      ((data, data + F),
        { data := data, size := C,
          m_reader := { read := data, prev_write := data + F, prev_watermark := data + C },
          m_writer := { write := data + F, claimed := data + F, watermark := data + C },
          m_shared := { read := data, write := data + F, watermark := data + C } }) := by
    simp only [try_read, filled, read_state.new]
    split_ifs <;> first | rfl | (exfalso; omega)
  have cs : ∀ k, k ≤ F → consume (try_read (filled data C F)).2 k =
      (true,
        { data := data, size := C,
          m_reader := { read := data + k, prev_write := data + F, prev_watermark := data + C },
          m_writer := { write := data + F, claimed := data + F, watermark := data + C },
          m_shared := { read := data + k, write := data + F, watermark := data + C } }) := by
    intro k hk
    rw [tr]
    simp only [consume, publish_read, set_read, to_size_t, ptr_diff]
    split_ifs <;> first | rfl | (exfalso; omega)
  refine ⟨filled data C F, hloop, rfl, ?_, ?_, ?_, ?_⟩
  · rw [cs s a4]
  · rw [cs s a4]
    exact ⟨by omega, hsC, rfl⟩
  · rw [cs s a4]
    simp only [try_claim, size_t_sub, to_size_t, ptr_diff]
    split_ifs <;> first | rfl | (exfalso; omega)
  · intro k hk1 hk2
    rw [cs k hk2]
    refine ⟨rfl, ⟨by omega, hsC, rfl⟩, ?_⟩
    simp only [try_claim, size_t_sub, to_size_t, ptr_diff]
    split_ifs <;> first | rfl | (exfalso; omega)

theorem full_buffer_refill_witness :
    ∃ rb, fill 5 4 (spsc_ring_buffer.new 4096 16) = some rb ∧
      rb.m_shared.write = 4096 + (16 / 5) * 5 ∧
      (consume (try_read rb).2 5).1 = true ∧
      try_claim_pre (consume (try_read rb).2 5).2 5 ∧
      (try_claim (consume (try_read rb).2 5).2 5).1 = none ∧
      ∀ k, 5 < k → k ≤ (16 / 5) * 5 →
        (consume (try_read rb).2 k).1 = true ∧
        try_claim_pre (consume (try_read rb).2 k).2 5 ∧
        (try_claim (consume (try_read rb).2 k).2 5).1 = some 4096 :=
  full_buffer_refill 4096 16 5 4 (by decide) (by decide) (by decide) (by decide)

/-- Counterexample to C8 as stated: capacity 16, message size 5.  The filling
loop stops with fifteen bytes committed; after `try_read` and a successful
`consume(5)` the next `try_claim(5)`, a legal call, returns no pointer. -/
theorem full_buffer_counterexample :
    fill 5 4 (spsc_ring_buffer.new 4096 16) = some (filled 4096 16 15) ∧
    (try_read (filled 4096 16 15)).1 = (4096, 4111) ∧
    (consume (try_read (filled 4096 16 15)).2 5).1 = true ∧
    (consume (try_read (filled 4096 16 15)).2 5).2.m_shared.read = 4101 ∧
    try_claim_pre (consume (try_read (filled 4096 16 15)).2 5).2 5 ∧
    (try_claim (consume (try_read (filled 4096 16 15)).2 5).2 5).1 = none := by
  decide

/-- C9 (gap policy at the boundary), as amended.  For a buffer inside the
address space whose `write` and shared `read` point into it, under the
assertions of `try_claim`: a region is claimed only from a tail space
`base + capacity - write` of at least `size`, or (tail too short) from a front
space `read - base` strictly greater than `size`, or (when `write < read`)
from a gap `read - write` strictly greater than `size`.  When the front space
or the gap that applies equals `size` exactly, `try_claim(size)` returns no
pointer; when the tail space equals `size` exactly, it succeeds and returns
`write`. -/
theorem gap_policy (rb : spsc_ring_buffer) (size : Nat)
    (hb : in_buffer rb) (hpre : try_claim_pre rb size) :
    (∀ p, (try_claim rb size).1 = some p →
      (rb.m_writer.write ≥ rb.m_shared.read ∧ p = rb.m_writer.write ∧
        rb.data + rb.size - rb.m_writer.write ≥ size) ∨
      (rb.m_writer.write ≥ rb.m_shared.read ∧ p = rb.data ∧
        rb.data + rb.size - rb.m_writer.write < size ∧ rb.m_shared.read - rb.data > size) ∨
      (rb.m_writer.write < rb.m_shared.read ∧ p = rb.m_writer.write ∧
        rb.m_shared.read - rb.m_writer.write > size)) ∧
    (rb.m_writer.write ≥ rb.m_shared.read →
      rb.data + rb.size - rb.m_writer.write = size →
      (try_claim rb size).1 = some rb.m_writer.write) ∧
    (rb.m_writer.write ≥ rb.m_shared.read →
      rb.data + rb.size - rb.m_writer.write < size →
      rb.m_shared.read - rb.data = size → (try_claim rb size).1 = none) ∧
    (rb.m_writer.write < rb.m_shared.read →
      rb.m_shared.read - rb.m_writer.write = size → (try_claim rb size).1 = none) := by
  obtain ⟨d, n, ⟨r, pw, pwm⟩, ⟨w, c, wwm⟩, ⟨sr, sw, swm⟩⟩ := rb
  obtain ⟨b1, b2, b3, b4, b5⟩ := hb
  obtain ⟨p1, p2, p3⟩ := hpre
  simp only at b1 b2 b3 b4 b5 p1 p2 p3
  simp only [try_claim, size_t_sub, to_size_t, ptr_diff]
  refine ⟨?_, ?_, ?_, ?_⟩
  · intro p hp
    split_ifs at hp <;> simp only [Option.some.injEq, reduceCtorEq] at hp <;> omega
  · intro g1 g2
    split_ifs <;> first | rfl | (exfalso; omega)
  · intro g1 g2 g3
    split_ifs <;> first | rfl | (exfalso; omega)
  · intro g1 g2
    split_ifs <;> first | rfl | (exfalso; omega)

theorem gap_policy_witness :
    (try_claim (spsc_ring_buffer.mk 4096 16 ⟨4100, 4106, 4112⟩ ⟨4112, 4112, 4112⟩
      ⟨4100, 4112, 4112⟩) 4).1 = none :=
  (gap_policy (spsc_ring_buffer.mk 4096 16 ⟨4100, 4106, 4112⟩ ⟨4112, 4112, 4112⟩
      ⟨4100, 4112, 4112⟩) 4 (by decide) (by decide)).2.2.1 (by decide) (by decide) (by decide)

/-- Counterexample to C9 as stated: on a fresh buffer of 16 bytes the tail
space equals the requested size 16 exactly, the call is legal, and
`try_claim(16)` claims the region: it returns the start of the buffer. -/
theorem gap_policy_counterexample :
    try_claim_pre (spsc_ring_buffer.new 4096 16) 16 ∧
    (spsc_ring_buffer.new 4096 16).m_writer.write ≥ (spsc_ring_buffer.new 4096 16).m_shared.read ∧
    (spsc_ring_buffer.new 4096 16).data + (spsc_ring_buffer.new 4096 16).size
      - (spsc_ring_buffer.new 4096 16).m_writer.write = 16 ∧
    try_claim (spsc_ring_buffer.new 4096 16) 16 =
      (some 4096, set_claimed (spsc_ring_buffer.new 4096 16) 4112) := by
  decide

/-- C10 (gap invariant).  In every reachable state, if the shared `read`
equals the shared `write` then no committed byte is unconsumed (the shadow set
of live addresses is empty and everything committed has been consumed);
equivalently, when a committed byte is unconsumed the two cursors differ. -/
theorem gap_invariant (W : World) (hR : Reachable W) :
    (W.rb.m_shared.read = W.rb.m_shared.write →
      W.live = [] ∧ W.consumed = W.committed) ∧
    (W.live ≠ [] → W.rb.m_shared.read ≠ W.rb.m_shared.write) := by
  have hI := Inv_of_Reachable W hR
  have key : W.rb.m_shared.read = W.rb.m_shared.write → W.live = [] := by
    intro h
    rw [hI.live_eq]
    have hc := hI.cur
    generalize W.rb = rb at hc h
    obtain ⟨d, n, ⟨r, pw, pwm⟩, ⟨w, c, wwm⟩, ⟨sr, sw, swm⟩⟩ := rb
    obtain ⟨h1, h2, h3, h4, h5, h6, h7, h8, h9, h10, h11⟩ := hc
    simp only at h1 h2 h3 h4 h5 h6 h7 h8 h9 h10 h11 h
    simp only [live_of]
    have e1 : r ≤ sw := by omega
    have e2 : sw - r = 0 := by omega
    rw [if_pos e1, e2, List.range'_zero]
  refine ⟨fun h => ⟨key h, ?_⟩, fun hne h => hne (key h)⟩
  rw [hI.fifo, key h, List.map_nil, List.append_nil]

theorem gap_invariant_witness :
    scenario_drained.rb.m_shared.read = 4106 ∧
    scenario_drained.rb.m_shared.write = 4106 ∧
    scenario_drained.live = [] ∧
    scenario_drained.consumed = scenario_drained.committed :=
  ⟨by decide, by decide,
    (gap_invariant scenario_drained
      ⟨4096, 16, fun _ => 0, scenario_drained_ops, by decide, rfl⟩).1 (by decide)⟩

/-- C11 (`try_read` reports emptiness faithfully).  In every reachable state
the range returned by `try_read` is empty (`start == end`) exactly when no
committed byte is left unconsumed: empty when everything committed has been
consumed, non-empty when at least one committed byte is unconsumed. -/
theorem try_read_empty_iff (W : World) (hR : Reachable W) :
    ((try_read W.rb).1.1 = (try_read W.rb).1.2 ↔ W.live = []) ∧
    (W.live = [] → W.consumed = W.committed) := by
  have hI := Inv_of_Reachable W hR
  refine ⟨?_, fun hl => by rw [hI.fifo, hl, List.map_nil, List.append_nil]⟩
  rw [hI.live_eq]
  have hc := hI.cur
  generalize W.rb = rb at hc
  obtain ⟨d, n, ⟨r, pw, pwm⟩, ⟨w, c, wwm⟩, ⟨sr, sw, swm⟩⟩ := rb
  obtain ⟨h1, h2, h3, h4, h5, h6, h7, h8, h9, h10, h11⟩ := hc
  simp only at h1 h2 h3 h4 h5 h6 h7 h8 h9 h10 h11
  simp only [try_read, live_of]
  split_ifs with g1 g2 g3 g4 <;>
    simp only [List.range'_eq_nil, List.append_eq_nil] <;> omega

theorem try_read_empty_iff_witness :
    (try_read scenario_drained.rb).1 = (4106, 4106) ∧ scenario_drained.live = [] ∧
    (try_read scenario_tail.rb).1 = (4100, 4112) ∧ scenario_tail.live ≠ [] :=
  ⟨by decide,
    (try_read_empty_iff scenario_drained
      ⟨4096, 16, fun _ => 0, scenario_drained_ops, by decide, rfl⟩).1.1 (by decide),
    by decide,
    fun h => absurd
      ((try_read_empty_iff scenario_tail
        ⟨4096, 16, fun _ => 0, scenario_tail_ops, by decide, rfl⟩).1.2 h) (by decide)⟩

/-- C12 (`commit` without a pending claim, idempotence).  For every state
with `claimed == write`, `commit` leaves the whole state (every private and
shared cursor) unchanged; this covers a fresh buffer, the state after any
`commit`, and the state after a failed `try_claim` called with `claimed ==
write`.  Hence for every state `commit` followed by `commit` gives the same
state as one `commit`. -/
theorem commit_idempotent (rb : spsc_ring_buffer) :
    (rb.m_writer.claimed = rb.m_writer.write → commit rb = rb) ∧
    (∀ data size, commit (spsc_ring_buffer.new data size) = spsc_ring_buffer.new data size) ∧
    (commit rb).m_writer.claimed = (commit rb).m_writer.write ∧
    (∀ size, rb.m_writer.claimed = rb.m_writer.write → (try_claim rb size).1 = none →
      commit (try_claim rb size).2 = rb) ∧
    commit (commit rb) = commit rb := by
  have key : ∀ x : spsc_ring_buffer, x.m_writer.claimed = x.m_writer.write → commit x = x := by
    intro x hx
    simp only [commit, ptr_diff, hx, sub_self, lt_self_iff_false, if_false, if_true]
  have hcw : (commit rb).m_writer.claimed = (commit rb).m_writer.write := by
    simp only [commit, publish_write, ptr_diff]
    split_ifs with g1 g2
    · rfl
    · omega
    · rfl
  refine ⟨key rb, fun data size => key _ rfl, hcw, ?_, key _ hcw⟩
  intro size hx hnone
  have e : (try_claim rb size).2 = rb := by
    simp only [try_claim] at hnone ⊢
    split_ifs at hnone ⊢ <;> first | rfl | simp at hnone
  rw [e]
  exact key rb hx

/-- The state after `try_claim` is the state before with at most `claimed`
assigned, and is the state before when no pointer is returned. -/
theorem try_claim_frame (rb : spsc_ring_buffer) (size : Nat) :
    (∃ c, (try_claim rb size).2 = set_claimed rb c) ∧
    ((try_claim rb size).1 = none → (try_claim rb size).2 = rb) := by
  simp only [try_claim]
  split_ifs
  · exact ⟨⟨_, rfl⟩, fun h => by simp at h⟩
  · exact ⟨⟨_, rfl⟩, fun h => by simp at h⟩
  · exact ⟨⟨rb.m_writer.claimed, rfl⟩, fun _ => rfl⟩
  · exact ⟨⟨_, rfl⟩, fun h => by simp at h⟩
  · exact ⟨⟨rb.m_writer.claimed, rfl⟩, fun _ => rfl⟩

/-- C13 (`try_claim` has no visible effect before `commit`).  For every state
and every size, `try_claim(size)` changes no field other than the
producer-local `claimed`: the buffer, the private `write`, the three shared
cursors and the consumer-private cursors are unchanged, so `try_read` before
and after returns the same range; and when `try_claim` returns no pointer
`claimed` is unchanged as well, so the whole state is unchanged. -/
theorem try_claim_invisible (rb : spsc_ring_buffer) (size : Nat) :
    (try_claim rb size).2.data = rb.data ∧
    (try_claim rb size).2.size = rb.size ∧
    (try_claim rb size).2.m_writer.write = rb.m_writer.write ∧
    (try_claim rb size).2.m_writer.watermark = rb.m_writer.watermark ∧
    (try_claim rb size).2.m_shared = rb.m_shared ∧
    (try_claim rb size).2.m_reader = rb.m_reader ∧
    (try_read (try_claim rb size).2).1 = (try_read rb).1 ∧
    ((try_claim rb size).1 = none → (try_claim rb size).2 = rb) := by
  obtain ⟨⟨c, hc⟩, hnone⟩ := try_claim_frame rb size
  rw [hc]
  refine ⟨rfl, rfl, rfl, rfl, rfl, rfl, ?_, ?_⟩
  · simp only [try_read, set_claimed]
    split_ifs <;> rfl
  · intro h
    rw [← hc]
    exact hnone h

/-- C14 (cursor ownership).  For every state, `try_claim` and `commit` leave
the shared `read` and the consumer-private cursors (`read`, `prev_write`,
`prev_watermark`) unchanged, and `try_read` and `consume` leave the shared
`write`, the shared watermark and the producer-private cursors (`write`,
`claimed`, and the unused private `watermark`) unchanged. -/
theorem cursor_ownership (rb : spsc_ring_buffer) (size : Nat) :
    ((try_claim rb size).2.m_shared.read = rb.m_shared.read ∧
      (try_claim rb size).2.m_reader = rb.m_reader) ∧
    ((commit rb).m_shared.read = rb.m_shared.read ∧ (commit rb).m_reader = rb.m_reader) ∧
    ((try_read rb).2.m_shared.write = rb.m_shared.write ∧
      (try_read rb).2.m_shared.watermark = rb.m_shared.watermark ∧
      (try_read rb).2.m_writer = rb.m_writer) ∧
    ((consume rb size).2.m_shared.write = rb.m_shared.write ∧
      (consume rb size).2.m_shared.watermark = rb.m_shared.watermark ∧
      (consume rb size).2.m_writer = rb.m_writer) := by
  refine ⟨?_, ?_, ?_, ?_⟩
  · obtain ⟨⟨c, hc⟩, _⟩ := try_claim_frame rb size
    rw [hc]
    exact ⟨rfl, rfl⟩
  · simp only [commit, publish_write]
    split_ifs <;> exact ⟨rfl, rfl⟩
  · simp only [try_read]
    split_ifs <;> exact ⟨rfl, rfl, rfl⟩
  · simp only [consume, publish_read, set_read]
    split_ifs <;> exact ⟨rfl, rfl, rfl⟩

/-- No call but `commit` writes the shared watermark. -/
theorem cursor_frame (rb : spsc_ring_buffer) (size : Nat) :
    (try_claim rb size).2.m_shared.watermark = rb.m_shared.watermark ∧
    (try_read rb).2.m_shared.watermark = rb.m_shared.watermark ∧
    (consume rb size).2.m_shared.watermark = rb.m_shared.watermark := by
  refine ⟨?_, ?_, ?_⟩
  · obtain ⟨⟨c, hc⟩, _⟩ := try_claim_frame rb size
    rw [hc]
    rfl
  · simp only [try_read]
    split_ifs <;> rfl
  · simp only [consume, publish_read, set_read]
    split_ifs <;> rfl

/-- C15 (the shared watermark), as amended.  The shared watermark is
`base + capacity` at construction; in every reachable state it is at most
`base + capacity`; `try_claim`, `try_read` and `consume` leave it unchanged;
`commit` changes it only when a wrapped claim is pending (`claimed < write`,
the claimed region starting at `base`), and then sets it to the `write`
position before the commit, which is again at most `base + capacity`. -/
theorem watermark_bounded (W : World) (hR : Reachable W) (size : Nat) :
    (∀ data n, (spsc_ring_buffer.new data n).m_shared.watermark = data + n) ∧
    W.rb.m_shared.watermark ≤ W.rb.data + W.rb.size ∧
    (try_claim W.rb size).2.m_shared.watermark = W.rb.m_shared.watermark ∧
    (try_read W.rb).2.m_shared.watermark = W.rb.m_shared.watermark ∧
    (consume W.rb size).2.m_shared.watermark = W.rb.m_shared.watermark ∧
    (commit W.rb).m_shared.watermark =
      (if W.rb.m_writer.claimed < W.rb.m_writer.write then W.rb.m_writer.write
       else W.rb.m_shared.watermark) ∧
    (W.rb.m_writer.claimed < W.rb.m_writer.write →
      ∃ k, W.pending = some (W.rb.data, k) ∧ W.rb.m_writer.claimed = W.rb.data + k) ∧
    (commit W.rb).m_shared.watermark ≤ W.rb.data + W.rb.size := by
  have hI := Inv_of_Reachable W hR
  have hc := hI.cur
  have hp := hI.pend
  have hco := cursor_frame W.rb size
  refine ⟨fun _ _ => rfl, hc.wm_hi, hco.1, hco.2.1, hco.2.2, ?_, ?_, ?_⟩
  · simp only [commit, publish_write, ptr_diff]
    split_ifs <;> first | rfl | (exfalso; omega)
  · intro hlt
    cases hpend : W.pending with
    | none =>
      rw [hpend] at hp
      simp only [pending_ok] at hp
      omega
    | some pk =>
      obtain ⟨p, k⟩ := pk
      rw [hpend] at hp
      simp only [pending_ok] at hp
      have e : p = W.rb.data := by omega
      subst e
      exact ⟨k, rfl, hp.2.1⟩
  · have h1 := hc.wm_hi
    have h2 := hc.write_hi
    have h3 := hc.write_eq
    simp only [commit, publish_write, ptr_diff]
    split_ifs <;> first | omega | (simp only <;> omega)

theorem watermark_bounded_witness :
    scenario_raise.rb.m_writer.claimed < scenario_raise.rb.m_writer.write ∧
    (commit scenario_raise.rb).m_shared.watermark = scenario_raise.rb.m_writer.write ∧
    (commit scenario_raise.rb).m_shared.watermark ≤
      scenario_raise.rb.data + scenario_raise.rb.size :=
  have h := watermark_bounded scenario_raise
    ⟨4096, 16, fun _ => 0, scenario_raise_ops, by decide, rfl⟩ 1
  ⟨by decide, h.2.2.2.2.2.1.trans (by decide), h.2.2.2.2.2.2.2⟩

/-- Counterexample to C15 as stated: in a reachable state of a buffer of 16
bytes the shared watermark is at offset 10 (address 4106) and a wrapped claim
is pending; its `commit` sets the watermark to offset 16 (address 4112), a
value greater than the one it replaces. -/
theorem watermark_raised_counterexample :
    Reachable scenario_raise ∧
    scenario_raise.rb.m_shared.watermark = 4106 ∧
    scenario_raise.pending = some (4096, 4) ∧
    scenario_raise.rb.m_writer.claimed < scenario_raise.rb.m_writer.write ∧
    (commit scenario_raise.rb).m_shared.watermark = 4112 ∧
    ¬ ((commit scenario_raise.rb).m_shared.watermark ≤ scenario_raise.rb.m_shared.watermark) :=
  ⟨⟨4096, 16, fun _ => 0, scenario_raise_ops, by decide, rfl⟩,
    by decide, by decide, by decide, by decide, by decide⟩

/-- C16 (end-to-end scenario, capacity 16), as amended.  From a fresh buffer
of 16 bytes: `try_claim(10)` succeeds at offset 0 and `commit` makes the
shared `write` offset 10; a second `try_claim(10)` fails (the tail has 6
bytes, `read` is at offset 0 and `0 > 10` is false); after `try_read`, which
returns offsets `(0, 10)`, and `consume(4)` (`read` at offset 4),
`try_claim(10)` is a legal call that still returns no pointer, because the
front space `4 > 10` is false. -/
theorem end_to_end_16 (data : Nat) (hsp : data + 16 < SIZE_MOD) :
    try_claim (spsc_ring_buffer.new data 16) 10 =
      (some data, set_claimed (spsc_ring_buffer.new data 16) (data + 10)) ∧
    commit (set_claimed (spsc_ring_buffer.new data 16) (data + 10)) = filled data 16 10 ∧
    (filled data 16 10).m_shared.write = data + 10 ∧
    try_claim (filled data 16 10) 10 = (none, filled data 16 10) ∧
    (try_read (filled data 16 10)).1 = (data, data + 10) ∧
    (consume (try_read (filled data 16 10)).2 4).1 = true ∧
    (consume (try_read (filled data 16 10)).2 4).2.m_shared.read = data + 4 ∧
    try_claim_pre (consume (try_read (filled data 16 10)).2 4).2 10 ∧
    (try_claim (consume (try_read (filled data 16 10)).2 4).2 10).1 = none := by
  have hsp1 : data + 16 < 18446744073709551616 := hsp
  have tr : try_read (filled data 16 10) =
      ((data, data + 10),
        { data := data, size := 16,
          m_reader := { read := data, prev_write := data + 10, prev_watermark := data + 16 },
          m_writer := { write := data + 10, claimed := data + 10, watermark := data + 16 },
          m_shared := { read := data, write := data + 10, watermark := data + 16 } }) := by
    simp only [try_read, filled, read_state.new]
    split_ifs <;> first | rfl | (exfalso; omega)
  have cs : consume (try_read (filled data 16 10)).2 4 =
      (true,
        { data := data, size := 16,
          m_reader := { read := data + 4, prev_write := data + 10, prev_watermark := data + 16 },
          m_writer := { write := data + 10, claimed := data + 10, watermark := data + 16 },
          m_shared := { read := data + 4, write := data + 10, watermark := data + 16 } }) := by
    rw [tr]
    simp only [consume, publish_read, set_read, to_size_t, ptr_diff]
    split_ifs <;> first | rfl | (exfalso; omega)
  refine ⟨?_, ?_, rfl, ?_, ?_, ?_, ?_, ?_, ?_⟩
  · simp only [try_claim, spsc_ring_buffer.new, read_state.new, write_state.new,
      shared_state.new, size_t_sub, to_size_t, ptr_diff]
    split_ifs <;> first | rfl | (exfalso; omega)
  · simp only [commit, set_claimed, publish_write, filled, spsc_ring_buffer.new,
      read_state.new, write_state.new, shared_state.new, ptr_diff]
    split_ifs <;> first | rfl | (exfalso; omega)
  · simp only [try_claim, filled, read_state.new, size_t_sub, to_size_t, ptr_diff]
    split_ifs <;> first | rfl | (exfalso; omega)
  · rw [tr]
  · rw [cs]
  · rw [cs]
  · rw [cs]
    exact ⟨by omega, by simp only; omega, rfl⟩
  · rw [cs]
    simp only [try_claim, size_t_sub, to_size_t, ptr_diff]
    split_ifs <;> first | rfl | (exfalso; omega)

theorem end_to_end_16_witness :
    (try_claim (consume (try_read (filled 4096 16 10)).2 4).2 10).1 = none :=
  (end_to_end_16 4096 (by decide)).2.2.2.2.2.2.2.2

/-- Counterexample to C16 as stated: with the buffer at address 4096, after
`try_claim(10)`, `commit`, `try_read` and `consume(4)` the shared `read` is at
offset 4 and the legal call `try_claim(10)` returns no pointer instead of the
start of the buffer. -/
theorem end_to_end_16_counterexample :
    (consume (try_read (commit (try_claim (spsc_ring_buffer.new 4096 16) 10).2)).2 4).1 = true ∧
    (consume (try_read (commit (try_claim (spsc_ring_buffer.new 4096 16) 10).2)).2
      4).2.m_shared.read = 4096 + 4 ∧
    try_claim_pre
      (consume (try_read (commit (try_claim (spsc_ring_buffer.new 4096 16) 10).2)).2 4).2 10 ∧
    (try_claim
      (consume (try_read (commit (try_claim (spsc_ring_buffer.new 4096 16) 10).2)).2 4).2
      10).1 = none := by
  decide

/-- C18 (claimed regions stay inside the buffer).  In every reachable state
the private and the shared `write` lie in `[base, base + capacity]`; for every
size with `0 < size <= capacity` the `size_t` subtraction `capacity - size` of
line 45 does not underflow, and a successful `try_claim(size)` returns `p` with
`base <= p` and `p + size <= base + capacity`, so that the `write` published by
the following `commit` lies in `[base, base + capacity]` again. -/
theorem claim_in_buffer (W : World) (hR : Reachable W) :
    (W.rb.data ≤ W.rb.m_writer.write ∧ W.rb.m_writer.write ≤ W.rb.data + W.rb.size ∧
      W.rb.data ≤ W.rb.m_shared.write ∧ W.rb.m_shared.write ≤ W.rb.data + W.rb.size) ∧
    ∀ size, 0 < size → size ≤ W.rb.size →
      (0 ≤ (W.rb.size : Int) - (size : Int) ∧ size_t_sub W.rb.size size = W.rb.size - size) ∧
      ∀ p rb1, try_claim W.rb size = (some p, rb1) →
        W.rb.data ≤ p ∧ p + size ≤ W.rb.data + W.rb.size ∧
        (commit rb1).m_writer.write = p + size ∧ (commit rb1).m_shared.write = p + size := by
  have hc := (Inv_of_Reachable W hR).cur
  generalize W.rb = rb at hc
  obtain ⟨d, n, ⟨r, pw, pwm⟩, ⟨w, c, wwm⟩, ⟨sr, sw, swm⟩⟩ := rb
  obtain ⟨h1, h2, h3, h4, h5, h6, h7, h8, h9, h10, h11⟩ := hc
  simp only at h1 h2 h3 h4 h5 h6 h7 h8 h9 h10 h11
  refine ⟨⟨by simp only; omega, by simp only; omega, h4, h5⟩, ?_⟩
  intro size hs0 hsn
  simp only at hsn
  refine ⟨⟨by simp only; omega, by simp only [size_t_sub, to_size_t]; omega⟩, ?_⟩
  intro p rb1 hres
  simp only [try_claim, set_claimed, size_t_sub, to_size_t, ptr_diff] at hres
  split_ifs at hres with g1 g2 g3 g4 <;>
    simp only [Prod.mk.injEq, Option.some.injEq, reduceCtorEq, false_and] at hres <;>
    obtain ⟨hp, hrb⟩ := hres <;> subst hrb <;> subst hp <;>
    simp only [commit, publish_write, ptr_diff] <;>
    split_ifs <;> first
      | (exfalso; omega)
      | (refine ⟨?_, ?_, ?_, ?_⟩ <;> first | rfl | omega)

theorem claim_in_buffer_witness :
    4096 ≤ 4096 ∧ 4096 + 3 ≤ scenario_tail.rb.data + scenario_tail.rb.size :=
  have h := ((claim_in_buffer scenario_tail
    ⟨4096, 16, fun _ => 0, scenario_tail_ops, by decide, rfl⟩).2 3 (by decide) (by decide)).2
      4096 (set_claimed scenario_tail.rb 4099) (by decide)
  ⟨h.1, h.2.1⟩

/-- C19 (readable ranges are well formed, the conversion of line 113 does not
wrap).  In every reachable state, whether or not a `try_read` preceded,
`try_read` returns `(start, end)` with `base <= start <= end <= base +
capacity`; and when `consume` takes its second branch (`prev_write < read`)
the difference `prev_watermark - read` is not negative, its conversion to
`size_t` is the difference itself, and a `consume(size)` that returns true has
`read + size <= prev_watermark`. -/
theorem read_range_ok (W : World) (hR : Reachable W) :
    (W.rb.data ≤ (try_read W.rb).1.1 ∧ (try_read W.rb).1.1 ≤ (try_read W.rb).1.2 ∧
      (try_read W.rb).1.2 ≤ W.rb.data + W.rb.size) ∧
    (W.rb.m_reader.prev_write < W.rb.m_reader.read →
      0 ≤ ptr_diff W.rb.m_reader.prev_watermark W.rb.m_reader.read ∧
      to_size_t (ptr_diff W.rb.m_reader.prev_watermark W.rb.m_reader.read) =
        W.rb.m_reader.prev_watermark - W.rb.m_reader.read ∧
      W.rb.m_reader.prev_watermark ≤ W.rb.data + W.rb.size ∧
      ∀ size, (consume W.rb size).1 = true →
        W.rb.m_reader.read + size ≤ W.rb.m_reader.prev_watermark) := by
  have hc := (Inv_of_Reachable W hR).cur
  generalize W.rb = rb at hc
  obtain ⟨d, n, ⟨r, pw, pwm⟩, ⟨w, c, wwm⟩, ⟨sr, sw, swm⟩⟩ := rb
  obtain ⟨h1, h2, h3, h4, h5, h6, h7, h8, h9, h10, h11⟩ := hc
  simp only at h1 h2 h3 h4 h5 h6 h7 h8 h9 h10 h11
  refine ⟨?_, ?_⟩
  · simp only [try_read]
    split_ifs <;> simp only <;> omega
  · intro hlt
    simp only at hlt
    refine ⟨by simp only [ptr_diff]; omega, by simp only [to_size_t, ptr_diff]; omega,
      by simp only; omega, ?_⟩
    intro size
    simp only [consume, to_size_t, ptr_diff]
    split_ifs <;> simp only [Bool.false_eq_true, false_implies, true_implies] <;> omega

theorem read_range_ok_witness :
    scenario_draining.rb.m_reader.prev_write = 4099 ∧
    scenario_draining.rb.m_reader.read = 4100 ∧
    scenario_draining.rb.m_reader.prev_watermark = 4112 ∧
    (consume scenario_draining.rb 13).1 = false ∧
    0 ≤ ptr_diff scenario_draining.rb.m_reader.prev_watermark
      scenario_draining.rb.m_reader.read :=
  ⟨by decide, by decide, by decide, by decide,
    ((read_range_ok scenario_draining
      ⟨4096, 16, fun _ => 0, scenario_draining_ops, by decide, rfl⟩).2 (by decide)).1⟩

/-- A consumer call made when the consumer has caught up is allowed and
leaves the ring buffer as it was. -/
theorem caught_up_step (W : World) (op : Op) (hq : caught_up W.rb)
    (hop : Op.is_consumer op = true) : ∃ W1, step W op = some W1 ∧ W1.rb = W.rb := by
  obtain ⟨rb, mem, pending, committed, consumed, live⟩ := W
  obtain ⟨d, n, ⟨r, pw, pwm⟩, ⟨w, c, wwm⟩, ⟨sr, sw, swm⟩⟩ := rb
  obtain ⟨q1, q2, q3⟩ := hq
  simp only at q1 q2 q3
  subst q1 q2 q3
  cases op with
  | try_claim size => simp [Op.is_consumer] at hop
  | store a b => simp [Op.is_consumer] at hop
  | commit => simp [Op.is_consumer] at hop
  | try_read =>
    refine ⟨_, rfl, ?_⟩
    simp only [try_read]
    split_ifs <;> first | rfl | (exfalso; omega)
  | consume size =>
    by_cases hs : size = 0
    · subst hs
      have e : consume
          { data := d, size := n, m_reader := { read := sr, prev_write := sr, prev_watermark := pwm },
            m_writer := { write := w, claimed := c, watermark := wwm },
            m_shared := { read := sr, write := sr, watermark := swm } } 0 =
          (true,
            { data := d, size := n,
              m_reader := { read := sr, prev_write := sr, prev_watermark := pwm },
              m_writer := { write := w, claimed := c, watermark := wwm },
              m_shared := { read := sr, write := sr, watermark := swm } }) := by
        simp only [consume, publish_read, set_read, to_size_t, ptr_diff]
        split_ifs <;> first | rfl | (exfalso; omega)
      simp only [step, e]
      exact ⟨_, rfl, rfl⟩
    · have e : consume
          { data := d, size := n, m_reader := { read := sr, prev_write := sr, prev_watermark := pwm },
            m_writer := { write := w, claimed := c, watermark := wwm },
            m_shared := { read := sr, write := sr, watermark := swm } } size =
          (false,
            { data := d, size := n,
              m_reader := { read := sr, prev_write := sr, prev_watermark := pwm },
              m_writer := { write := w, claimed := c, watermark := wwm },
              m_shared := { read := sr, write := sr, watermark := swm } }) := by
        simp only [consume, publish_read, set_read, to_size_t, ptr_diff]
        split_ifs <;> first | rfl | (exfalso; omega)
      simp only [step, e]
      exact ⟨_, rfl, rfl⟩

/-- Any sequence of consumer calls made when the consumer has caught up is
allowed and leaves the ring buffer as it was. -/
theorem caught_up_run (ops : List Op) (hall : ∀ op ∈ ops, Op.is_consumer op = true)
    (W : World) (hq : caught_up W.rb) : ∃ W1, run W ops = some W1 ∧ W1.rb = W.rb := by
  induction ops generalizing W with
  | nil => exact ⟨W, rfl, rfl⟩
  | cons op ops ih =>
    obtain ⟨W2, hs, hrb⟩ := caught_up_step W op hq (hall op (List.mem_cons_self op ops))
    have hq2 : caught_up W2.rb := by rw [hrb]; exact hq
    obtain ⟨W1, hr, hrb1⟩ := ih (fun o ho => hall o (List.mem_cons_of_mem op ho)) W2 hq2
    refine ⟨W1, ?_, by rw [hrb1, hrb]⟩
    simp only [run, hs, Option.some_bind]
    exact hr

/-- C20 (an empty buffer can refuse a legal claim for ever).  Capacity 16:
after `try_claim(5)`, `commit`, `try_read`, `consume(5)` the state is
reachable, every committed byte is consumed, the shared `read` equals the
shared `write` away from `base`, and after any further sequence of `try_read`
and `consume` calls (all of which are allowed) `try_claim(12)` is a legal call
that returns no pointer.  Likewise after `try_claim(16)`, `commit`,
`try_read`, `consume(16)` for `try_claim(16)`. -/
theorem empty_buffer_refuses :
    (Reachable scenario_stuck5 ∧ scenario_stuck5.live = [] ∧
      scenario_stuck5.consumed = scenario_stuck5.committed ∧
      scenario_stuck5.rb.m_shared.read = scenario_stuck5.rb.m_shared.write ∧
      scenario_stuck5.rb.m_shared.read ≠ scenario_stuck5.rb.data ∧
      ∀ ops, (∀ op ∈ ops, Op.is_consumer op = true) →
        ∃ W1, run scenario_stuck5 ops = some W1 ∧ try_claim_pre W1.rb 12 ∧
          (try_claim W1.rb 12).1 = none) ∧
    (Reachable scenario_stuck16 ∧ scenario_stuck16.live = [] ∧
      scenario_stuck16.consumed = scenario_stuck16.committed ∧
      scenario_stuck16.rb.m_shared.read = scenario_stuck16.rb.m_shared.write ∧
      scenario_stuck16.rb.m_shared.read ≠ scenario_stuck16.rb.data ∧
      ∀ ops, (∀ op ∈ ops, Op.is_consumer op = true) →
        ∃ W1, run scenario_stuck16 ops = some W1 ∧ try_claim_pre W1.rb 16 ∧
          (try_claim W1.rb 16).1 = none) := by
  refine ⟨⟨⟨4096, 16, fun _ => 0, scenario_stuck5_ops, by decide, rfl⟩, by decide, by decide,
      by decide, by decide, ?_⟩,
    ⟨⟨4096, 16, fun _ => 0, scenario_stuck16_ops, by decide, rfl⟩, by decide, by decide,
      by decide, by decide, ?_⟩⟩
  · intro ops hall
    obtain ⟨W1, hr, hrb⟩ := caught_up_run ops hall scenario_stuck5 (by decide)
    refine ⟨W1, hr, ?_, ?_⟩ <;> rw [hrb] <;> decide
  · intro ops hall
    obtain ⟨W1, hr, hrb⟩ := caught_up_run ops hall scenario_stuck16 (by decide)
    refine ⟨W1, hr, ?_, ?_⟩ <;> rw [hrb] <;> decide

end q.util
